import Mathlib

/-!
Verification of the turing-smart-screen tray application
(`src/tray/config_manager.py`, `src/tray/service_manager.py`,
`src/tray/i18n/__init__.py`).

The configuration layer edits `config.yaml` by Python regular-expression
substitution (`re.search` / `re.subn` with `re.MULTILINE`).  We embed the
exact patterns of the source as item lists over a small backtracking
matcher that reproduces Python `re` semantics for the constructs those
patterns use: literals, character classes, greedy `*`/`+`/`?`, lazy `*?`,
the multiline anchors `^`/`$`, and one capture group per pattern.
Strings are modelled as `List Char`; file contents are `Option` (a missing
file reads as the empty string, as in `ScreenConfig._read`).
-/

abbrev Str := List Char

/-- Character set matched by Python's `\s` (and removed by `str.strip()`)
for text patterns: ASCII whitespace together with the Unicode whitespace
code points recognised by `str.isspace`. -/
def pySpaceCodes : List Nat :=
  [9, 10, 11, 12, 13, 28, 29, 30, 31, 32, 133, 160, 5760,
   8192, 8193, 8194, 8195, 8196, 8197, 8198, 8199, 8200, 8201, 8202,
   8232, 8233, 8239, 8287, 12288]

def isPySpace (c : Char) : Bool := pySpaceCodes.contains c.toNat

/-- Python `\d` restricted to ASCII decimal digits.  (The config files at
issue store ASCII digits; non-ASCII Unicode decimal digits are outside the
scope of this model.) -/
def isPyDigit (c : Char) : Bool := 48 ≤ c.toNat && c.toNat ≤ 57

/-- The apostrophe character `'`. -/
def aposChar : Char := Char.ofNat 39

/-- The backslash character `\`. -/
def backslashChar : Char := Char.ofNat 92

/-- Python `["']`: a double or single quote. -/
def isQuote (c : Char) : Bool := c == '"' || c == aposChar

/-- Python `[^"'\n]`: any character other than quotes and newline. -/
def isThemeValChar (c : Char) : Bool :=
  !(c == '"' || c == aposChar || c == '\n')

/-- Python `[^"'\n#]`: any character other than quotes, newline and hash. -/
def isRevisionChar (c : Char) : Bool :=
  !(c == '"' || c == aposChar || c == '\n' || c == '#')

/-- Python `[0-9.]`: an ASCII digit or a dot. -/
def isSizeChar (c : Char) : Bool := isPyDigit c || c == '.'

/-- Python `.` under `re.DOTALL`: any character. -/
def isAnyChar (_ : Char) : Bool := true

/-- One element of a compiled pattern.  Quantifiers in the source patterns
only ever apply to single-character classes, so each quantified item
carries its class directly. -/
inductive Item where
  | lit (c : Char)
  | cls (p : Char → Bool)
  | star (p : Char → Bool)
  | starL (p : Char → Bool)
  | plus (p : Char → Bool)
  | opt (p : Char → Bool)
  | bol
  | eol
  | grpOpen
  | grpClose

/-- Span of the (unique) capture group of a pattern: start and end index. -/
abbrev Caps := Nat × Nat

def charAt? (s : Str) (i : Nat) : Option Char := s[i]?

/-- `^` with `re.MULTILINE`: start of string or just after a newline. -/
def isBol (s : Str) (i : Nat) : Bool :=
  i == 0 || charAt? s (i - 1) == some '\n'

/-- `$`: with `re.MULTILINE` (`ml = true`) end of string or just before a
newline; otherwise end of string or before a final newline. -/
def isEol (ml : Bool) (s : Str) (i : Nat) : Bool :=
  if ml then i == s.length || charAt? s i == some '\n'
  else i == s.length || (i + 1 == s.length && charAt? s i == some '\n')

/-- Length of the maximal run of characters satisfying `p`. -/
def runLen (p : Char → Bool) : Str → Nat
  | [] => 0
  | c :: cs => if p c then runLen p cs + 1 else 0

/-- Maximal run of `p`-characters starting at index `i` of `s`. -/
def runLenAt (p : Char → Bool) (s : Str) (i : Nat) : Nat :=
  runLen p (s.drop i)

/-- `[k, k-1, ..., 0]`: the candidate consumption lengths of a greedy
star, longest first. -/
def descList : Nat → List Nat
  | 0 => [0]
  | k + 1 => (k + 1) :: descList k

/-- `[0, 1, ..., k]`: candidates of a lazy star, shortest first. -/
def ascList (k : Nat) : List Nat := (descList k).reverse

/-- `[k, k-1, ..., 1]`: candidates of a greedy plus, longest first. -/
def descPos : Nat → List Nat
  | 0 => []
  | k + 1 => (k + 1) :: descPos k

/-- Candidate numbers of characters an item may consume at position `i`,
in the order Python's backtracking engine tries them. -/
def cands (s : Str) (i : Nat) : Item → List Nat
  | .lit c => if charAt? s i == some c then [1] else []
  | .cls p => if (charAt? s i).any p then [1] else []
  | .star p => descList (runLenAt p s i)
  | .starL p => ascList (runLenAt p s i)
  | .plus p => descPos (runLenAt p s i)
  | .opt p => if (charAt? s i).any p then [1, 0] else [0]
  | _ => [0]

/-- First success of `f` over a list of candidates. -/
def firstSome (f : Nat → Option α) : List Nat → Option α
  | [] => none
  | j :: js =>
    match f j with
    | some r => some r
    | none => firstSome f js

/-- Backtracking matcher: try to match `items` against `s` starting at
position `i`, returning the end position and the capture span.  Candidate
consumption lengths are tried in Python's preference order, so the result
coincides with Python `re`'s leftmost, greedy/lazy match. -/
def matchItems (s : Str) (ml : Bool) :
    List Item → Nat → Caps → Option (Nat × Caps)
  | [], i, caps => some (i, caps)
  | .bol :: rest, i, caps =>
    if isBol s i then matchItems s ml rest i caps else none
  | .eol :: rest, i, caps =>
    if isEol ml s i then matchItems s ml rest i caps else none
  | .grpOpen :: rest, i, caps => matchItems s ml rest i (i, caps.2)
  | .grpClose :: rest, i, caps => matchItems s ml rest i (caps.1, i)
  | .lit c :: rest, i, caps =>
    firstSome (fun j => matchItems s ml rest (i + j) caps)
      (cands s i (.lit c))
  | .cls p :: rest, i, caps =>
    firstSome (fun j => matchItems s ml rest (i + j) caps)
      (cands s i (.cls p))
  | .star p :: rest, i, caps =>
    firstSome (fun j => matchItems s ml rest (i + j) caps)
      (cands s i (.star p))
  | .starL p :: rest, i, caps =>
    firstSome (fun j => matchItems s ml rest (i + j) caps)
      (cands s i (.starL p))
  | .plus p :: rest, i, caps =>
    firstSome (fun j => matchItems s ml rest (i + j) caps)
      (cands s i (.plus p))
  | .opt p :: rest, i, caps =>
    firstSome (fun j => matchItems s ml rest (i + j) caps)
      (cands s i (.opt p))

/-- Scan positions `i, i+1, ...` (fuel-bounded) for the leftmost match,
as `re.search` does. -/
def searchGo (s : Str) (ml : Bool) (items : List Item) :
    Nat → Nat → Option (Nat × Nat × Caps)
  | 0, _ => none
  | fuel + 1, i =>
    match matchItems s ml items i (0, 0) with
    | some (e, caps) => some (i, e, caps)
    | none => searchGo s ml items fuel (i + 1)

/-- `re.search`: leftmost match of `items` in `s`. -/
def search (ml : Bool) (items : List Item) (s : Str) :
    Option (Nat × Nat × Caps) :=
  searchGo s ml items (s.length + 1) 0

/-- Slice `s[b:e]`. -/
def sliceStr (s : Str) (b e : Nat) : Str := (s.take e).drop b

/-- `re.subn` worker: starting at position `i`, find the leftmost match,
emit the unmatched gap and the replacement, and continue after the match
(skipping one character after an empty match, as Python does).  Returns
the rewritten suffix and the number of replacements. -/
def subnGo (s : Str) (ml : Bool) (items : List Item)
    (repl : Caps → Str) : Nat → Nat → Str × Nat
  | 0, i => (s.drop i, 0)
  | fuel + 1, i =>
    match searchGo s ml items (s.length + 1 - i) i with
    | none => (s.drop i, 0)
    | some (b, e, caps) =>
      if e ≤ b then
        let (tail, n) := subnGo s ml items repl fuel (e + 1)
        (sliceStr s i b ++ repl caps ++ sliceStr s e (e + 1) ++ tail, n + 1)
      else
        let (tail, n) := subnGo s ml items repl fuel e
        (sliceStr s i b ++ repl caps ++ tail, n + 1)

/-- `re.subn`: replace every non-overlapping match of `items` in `s`. -/
def subn (ml : Bool) (items : List Item) (repl : Caps → Str) (s : Str) :
    Str × Nat :=
  subnGo s ml items repl (s.length + 1) 0

/-- `str.strip()`: drop leading and trailing whitespace. -/
def pyStrip (s : Str) : Str :=
  ((s.dropWhile isPySpace).reverse.dropWhile isPySpace).reverse

/-- Decimal value of an ASCII digit string (Python `int`). -/
def natOfDigits (s : Str) : Nat :=
  s.foldl (fun n c => n * 10 + (c.toNat - 48)) 0

/-- The literal characters of `w` as pattern items. -/
def litsOf (w : Str) : List Item := w.map Item.lit

/-!
## The patterns of `ScreenConfig`, transcribed from the source

`set_theme`:            `^(\s*THEME\s*:\s*)["']?[^"'\n]+["']?\s*$`  (MULTILINE)
`get_current_theme`:    `^\s*THEME\s*:\s*["']?([^"'\n]+)["']?\s*$`  (MULTILINE)
`_ORIENT_PATTERN`:      `^(\s*DISPLAY_ORIENTATION\s*:\s*)\d+`       (MULTILINE)
trailing digits:        `\d+$`                                       (no flags)
`get_display_revision`: `^\s*REVISION\s*:\s*["']?([^"'\n#]+)["']?`  (MULTILINE)
`_get_theme_size`:      `^\s*DISPLAY_SIZE\s*:\s*["']?([0-9.]+)`     (MULTILINE)
                        `BACKGROUND:.*?WIDTH\s*:\s*(\d+)`           (DOTALL)
                        `BACKGROUND:.*?HEIGHT\s*:\s*(\d+)`          (DOTALL)
-/

def themeSubItems : List Item :=
  [.bol, .grpOpen, .star isPySpace] ++ litsOf "THEME".toList ++
  [.star isPySpace, .lit ':', .star isPySpace, .grpClose,
   .opt isQuote, .plus isThemeValChar, .opt isQuote, .star isPySpace, .eol]

def themeGetItems : List Item :=
  [.bol, .star isPySpace] ++ litsOf "THEME".toList ++
  [.star isPySpace, .lit ':', .star isPySpace,
   .opt isQuote, .grpOpen, .plus isThemeValChar, .grpClose,
   .opt isQuote, .star isPySpace, .eol]

def orientItems : List Item :=
  [.bol, .grpOpen, .star isPySpace] ++ litsOf "DISPLAY_ORIENTATION".toList ++
  [.star isPySpace, .lit ':', .star isPySpace, .grpClose, .plus isPyDigit]

def digitsEndItems : List Item := [.grpOpen, .plus isPyDigit, .grpClose, .eol]

def revisionItems : List Item :=
  [.bol, .star isPySpace] ++ litsOf "REVISION".toList ++
  [.star isPySpace, .lit ':', .star isPySpace,
   .opt isQuote, .grpOpen, .plus isRevisionChar, .grpClose, .opt isQuote]

def displaySizeItems : List Item :=
  [.bol, .star isPySpace] ++ litsOf "DISPLAY_SIZE".toList ++
  [.star isPySpace, .lit ':', .star isPySpace,
   .opt isQuote, .grpOpen, .plus isSizeChar, .grpClose]

def bgWidthItems : List Item :=
  litsOf "BACKGROUND:".toList ++ [.starL isAnyChar] ++ litsOf "WIDTH".toList ++
  [.star isPySpace, .lit ':', .star isPySpace, .grpOpen, .plus isPyDigit, .grpClose]

def bgHeightItems : List Item :=
  litsOf "BACKGROUND:".toList ++ [.starL isAnyChar] ++ litsOf "HEIGHT".toList ++
  [.star isPySpace, .lit ':', .star isPySpace, .grpOpen, .plus isPyDigit, .grpClose]

/-!
## `ScreenConfig` operations

`config.yaml` is modelled as `Option Str`: `none` is a missing file, which
`ScreenConfig._read` reads as the empty string.  The setters return the
pair (returned boolean, file content after the call); when no substitution
happened the file is not written, so the content is returned unchanged.
-/

namespace ScreenConfig

/-- `ScreenConfig._read`. -/
def read (file : Option Str) : Str := file.getD []

/-- `ScreenConfig.get_current_theme`. -/
def get_current_theme (file : Option Str) : Option Str :=
  match search true themeGetItems (read file) with
  | some (_, _, caps) => some (pyStrip (sliceStr (read file) caps.1 caps.2))
  | none => none

/-- `ScreenConfig.set_theme`.  The replacement template is `\g<1>` followed
by the theme name (which by the claims' hypotheses contains no backslash,
so it is literal text to Python's template expansion). -/
def set_theme (file : Option Str) (theme_name : Str) : Bool × Option Str :=
  let content := read file
  let res := subn true themeSubItems
    (fun caps => sliceStr content caps.1 caps.2 ++ theme_name) content
  if res.2 ≠ 0 then (true, some res.1) else (false, file)

/-- `ScreenConfig.get_orientation`. -/
def get_orientation (file : Option Str) : Nat :=
  let content := read file
  match search true orientItems content with
  | some (b, e, _) =>
    let g0 := sliceStr content b e
    match search false digitsEndItems g0 with
    | some (_, _, caps) => natOfDigits (sliceStr g0 caps.1 caps.2)
    | none => 0
  | none => 0

/-- `ScreenConfig.set_orientation`. -/
def set_orientation (file : Option Str) (value : Int) : Bool × Option Str :=
  let content := read file
  if value = 0 ∨ value = 1 ∨ value = 2 ∨ value = 3 then
    let res := subn true orientItems
      (fun caps => sliceStr content caps.1 caps.2 ++ (toString value).toList)
      content
    if res.2 ≠ 0 then (true, some res.1) else (false, file)
  else (false, file)

/-- `ScreenConfig.get_display_revision`. -/
def get_display_revision (file : Option Str) : Option Str :=
  match search true revisionItems (read file) with
  | some (_, _, caps) => some (pyStrip (sliceStr (read file) caps.1 caps.2))
  | none => none

/-- `ScreenConfig.REVISION_TO_SIZE`; the value stored for `SIMU` is
Python `None`. -/
def REVISION_TO_SIZE : List (String × Option String) :=
  [("A", some "3.5"), ("B", some "3.5"), ("C", some "5"), ("D", some "3.5"),
   ("WEACT_A", some "3.5"), ("WEACT_B", some "0.96"), ("SIMU", none)]

/-- `ScreenConfig.RESOLUTION_TO_SIZE`. -/
def RESOLUTION_TO_SIZE : List ((Nat × Nat) × String) :=
  [((320, 480), "3.5"), ((480, 320), "3.5"), ((480, 800), "5"),
   ((800, 480), "5"), ((128, 128), "0.96"), ((160, 128), "0.96")]

/-- Python `str.upper()` on the ASCII revisions involved. -/
def pyUpper (s : Str) : Str := s.map Char.toUpper

def assocLookup (l : List (String × α)) (k : String) : Option α :=
  match l.find? (fun p => p.1 == k) with
  | some p => some p.2
  | none => none

/-- `ScreenConfig.get_display_size`.  `if revision:` is Python truthiness,
so an empty (stripped) revision yields `None`; `REVISION_TO_SIZE.get`
returns `None` both for unknown keys and for `SIMU`. -/
def get_display_size (file : Option Str) : Option String :=
  match get_display_revision file with
  | some rev =>
    if rev ≠ [] then
      match assocLookup REVISION_TO_SIZE (String.mk (pyUpper rev)) with
      | some o => o
      | none => none
    else none
  | none => none

end ScreenConfig

/-! ### Sanity checks of the engine against the Python behaviour -/

example :
    ScreenConfig.set_theme (some "THEME: a\n\nB: c\n".toList) "x".toList
      = (true, some "THEME: x\nB: c\n".toList) := by decide

example :
    ScreenConfig.set_theme (some "THEME: old\nfoo: bar\n".toList) [] =
      (true, some "THEME: \nfoo: bar\n".toList) := by decide

example :
    ScreenConfig.get_current_theme (some "THEME: \nfoo: bar\n".toList) =
      some "foo: bar".toList := by decide

example :
    ScreenConfig.set_theme (some "THEME:\n\nTHEME: \"abc\"\n".toList)
      "name".toList = (true, some "THEME:\n\nTHEME: name".toList) := by decide

example :
    ScreenConfig.get_current_theme (some "THEME:\n\nTHEME: name".toList) =
      some "THEME: name".toList := by decide

example :
    ScreenConfig.set_theme (some "  THEME: 'old'  \nOTHER: 1\n".toList)
      "New Theme".toList =
      (true, some "  THEME: New Theme\nOTHER: 1\n".toList) := by decide

example :
    ScreenConfig.set_theme (some "THEME: a\nTHEME: b\n".toList) "z".toList =
      (true, some "THEME: z\nTHEME: z".toList) := by decide

example : ScreenConfig.get_orientation (some "DISPLAY_ORIENTATION: 7\n".toList) = 7 := by
  decide

example : ScreenConfig.get_orientation (some "DISPLAY_ORIENTATION:\n  7\n".toList) = 7 := by
  decide

example : ScreenConfig.get_orientation none = 0 := by decide

example :
    ScreenConfig.set_orientation (some "DISPLAY_ORIENTATION: 25\nX: 1\n".toList) 3 =
      (true, some "DISPLAY_ORIENTATION: 3\nX: 1\n".toList) := by decide

example :
    ScreenConfig.set_orientation (some "nothing here\n".toList) 2 =
      (false, some "nothing here\n".toList) := by decide

example :
    ScreenConfig.get_display_size (some "REVISION: \"C\"\n".toList) = some "5" := by
  decide

example :
    ScreenConfig.get_display_size (some "REVISION: SIMU\n".toList) = none := by
  decide

/-!
## Theme discovery (`ScreenConfig._get_theme_size`, `get_available_themes`)

The themes directory is modelled as `Option (List ThemeEntry)`: `none` if
`res/themes` does not exist, otherwise the entries `iterdir` yields (in
file-system order).  For each entry, `themeYaml = none` means no
`theme.yaml` file, `some none` a `theme.yaml` that cannot be read (the
`except` in `_get_theme_size` turns that into `None`), and `some (some c)`
a readable file with content `c`.
-/

namespace ScreenConfig

structure ThemeEntry where
  name : String
  isDir : Bool
  themeYaml : Option (Option Str)

/-- Python truthiness of an optional string: `None` and `""` are falsy. -/
def pyTruthy (o : Option String) : Bool :=
  match o with
  | some s => s ≠ ""
  | none => false

def resolutionLookup (wh : Nat × Nat) : Option String :=
  match RESOLUTION_TO_SIZE.find? (fun p => p.1 == wh) with
  | some p => some p.2
  | none => none

/-- `ScreenConfig._get_theme_size`. -/
def get_theme_size (d : ThemeEntry) : Option String :=
  match d.themeYaml with
  | none => none
  | some none => none
  | some (some content) =>
    match search true displaySizeItems content with
    | some (_, _, caps) => some (String.mk (sliceStr content caps.1 caps.2))
    | none =>
      match search false bgWidthItems content,
            search false bgHeightItems content with
      | some (_, _, wc), some (_, _, hc) =>
        resolutionLookup
          (natOfDigits (sliceStr content wc.1 wc.2),
           natOfDigits (sliceStr content hc.1 hc.2))
      | _, _ => none

/-- Python `str.startswith`. -/
def pyStartsWith (s pre : Str) : Bool := s.take pre.length == pre

/-- The per-entry filter applied inside the `get_available_themes` loop:
skip non-directories, entries without `theme.yaml`, names starting with
`--` or `_`, and (when the display size is known) themes whose detected
size is known and differs. -/
def keepTheme (display_size : Option String) (d : ThemeEntry) : Bool :=
  d.isDir && d.themeYaml.isSome &&
  !(pyStartsWith d.name.toList "--".toList ||
    pyStartsWith d.name.toList "_".toList) &&
  (if pyTruthy display_size then
    let theme_size := get_theme_size d
    !(pyTruthy theme_size && theme_size != display_size)
  else true)

/-- `ScreenConfig.get_available_themes`. -/
def get_available_themes (themes_dir : Option (List ThemeEntry))
    (config : Option Str) (filter_by_display : Bool) : List String :=
  match themes_dir with
  | none => []
  | some entries =>
    let display_size :=
      if filter_by_display then get_display_size config else none
    let themes := (entries.filter (keepTheme display_size)).map (·.name)
    themes.insertionSort (· ≤ ·)

end ScreenConfig

/-!
## `TrayConfig` (tray preferences, JSON in `~/.config/turing-screen`)

JSON values are modelled by `JVal`; the persisted file by `TrayFile`.
`jsonOther` stands for a file holding valid JSON that is neither an object
nor a sequence of key/value pairs (a number, a string, a heterogeneous
list, ...): `json.load` succeeds on it but `dict.update` then raises an
uncaught `TypeError`/`ValueError`, so construction fails; this is the
`.error` result of `load`.  A Python `dict` is an insertion-ordered
association list with unique keys: `dictSet` updates in place or appends.
-/

inductive JVal where
  | null
  | bool (b : Bool)
  | num (n : Int)
  | str (s : String)
  | arr (l : List JVal)
  | obj (l : List (String × JVal))

abbrev Dict := List (String × JVal)

inductive TrayFile where
  | missing
  | unreadable
  | invalidJson
  | jsonOther
  | jsonObj (d : Dict)

namespace TrayConfig

/-- `TrayConfig.DEFAULTS`. -/
def DEFAULTS : Dict :=
  [("language", .str "pt_BR"), ("show_notifications", .bool true),
   ("check_updates", .bool true), ("poll_interval", .num 5)]

/-- `dict.get`: the value at the first (for a Python dict, unique)
occurrence of the key. -/
def dictGet : Dict → String → Option JVal
  | [], _ => none
  | (k', v) :: rest, k => if k' = k then some v else dictGet rest k

/-- `d[k] = v`: replace in place, or append a new key. -/
def dictSet : Dict → String → JVal → Dict
  | [], k, v => [(k, v)]
  | (k', v') :: rest, k, v =>
    if k' = k then (k, v) :: rest else (k', v') :: dictSet rest k v

/-- `dict.update`. -/
def dictUpdate (d stored : Dict) : Dict :=
  stored.foldl (fun acc p => dictSet acc p.1 p.2) d

/-- `TrayConfig.__init__` / `TrayConfig._load`: start from the defaults,
then merge the stored file if it exists and parses; `JSONDecodeError` and
`OSError` are caught (defaults kept), but a non-object JSON value makes
`dict.update` raise, which nothing catches. -/
def load : TrayFile → Except Unit Dict
  | .missing => .ok DEFAULTS
  | .unreadable => .ok DEFAULTS
  | .invalidJson => .ok DEFAULTS
  | .jsonOther => .error ()
  | .jsonObj stored => .ok (dictUpdate DEFAULTS stored)

/-- `TrayConfig.get` (with the default `None`, i.e. `Option`). -/
def get (d : Dict) (k : String) : Option JVal := dictGet d k

/-- `TrayConfig.set`: mutate the record, then `save` serializes the whole
record to the preferences file. -/
def set (d : Dict) (k : String) (v : JVal) : Dict × TrayFile :=
  let d' := dictSet d k v
  (d', .jsonObj d')

end TrayConfig

/-!
## `ServiceManager` (systemctl wrapper)

`subprocess.run` and `shutil.which` are external; they are modelled by an
environment: the resolved `systemctl` path (if any) and the behaviour of
spawning a given argument vector, which either completes with an exit code
and stdout, times out, or raises.
-/

inductive ExecOutcome where
  | completed (returncode : Int) (stdout : String)
  | timedOut
  | raised (msg : String)
deriving DecidableEq

structure SystemEnv where
  systemctlPath : Option String
  exec : List String → ExecOutcome

namespace ServiceManager

def SERVICE_NAME : String := "turing-screen"

/-- Python `str.strip()` on `String`. -/
def pyStripS (s : String) : String := String.mk (pyStrip s.toList)

/-- `ServiceManager._run`: returns `(success, stdout)`; the tool missing,
a timeout and a raised exception all yield `False` with a message. -/
def run (env : SystemEnv) (args : List String) : Bool × String :=
  match env.systemctlPath with
  | none => (false, "systemctl not found")
  | some p =>
    match env.exec (p :: "--user" :: args) with
    | .completed rc out => (rc == 0, pyStripS out)
    | .timedOut => (false, "Command timed out")
    | .raised msg => (false, msg)

def start (env : SystemEnv) : Bool := (run env ["start", SERVICE_NAME]).1

def stop (env : SystemEnv) : Bool := (run env ["stop", SERVICE_NAME]).1

def restart (env : SystemEnv) : Bool := (run env ["restart", SERVICE_NAME]).1

def is_active (env : SystemEnv) : Bool := (run env ["is-active", SERVICE_NAME]).1

def enable (env : SystemEnv) : Bool := (run env ["enable", SERVICE_NAME]).1

def disable (env : SystemEnv) : Bool := (run env ["disable", SERVICE_NAME]).1

def is_enabled (env : SystemEnv) : Bool := (run env ["is-enabled", SERVICE_NAME]).1

end ServiceManager

/-!
## `I18n` (translation tables)

Language files are an environment mapping a language code to the parsed
JSON table when `<code>.json` exists (`_load_file` returns `{}` for a
missing file).  `t` is modelled for calls without format arguments (the
`if args:` branch is not taken).
-/

structure LangEnv where
  files : String → Option (List (String × String))

namespace I18n

def SUPPORTED_CODES : List String := ["pt_BR", "pt_PT", "en_US", "es_ES"]

def lookupKey : List (String × String) → String → Option String
  | [], _ => none
  | (k', v) :: rest, k => if k' = k then some v else lookupKey rest k

/-- `I18n._load_file`. -/
def load_file (env : LangEnv) (code : String) : List (String × String) :=
  (env.files code).getD []

/-- `I18n.set_language`: the resulting `_lang` and `_translations`. -/
def set_language (env : LangEnv) (language : String) :
    String × List (String × String) :=
  let l := if language ∈ SUPPORTED_CODES then language else "en_US"
  (l, load_file env l)

/-- `I18n.t` (no format arguments): current table, then the `en_US`
fallback, then the key itself. -/
def t (translations fallback : List (String × String)) (key : String) :
    String :=
  (lookupKey translations key).getD ((lookupKey fallback key).getD key)

end I18n

/-!
## Dictionary lemmas for `TrayConfig`
-/

namespace TrayConfig

theorem dictGet_dictSet_self (d : Dict) (k : String) (v : JVal) :
    dictGet (dictSet d k v) k = some v := by
  induction d with
  | nil => simp [dictSet, dictGet]
  | cons p rest ih =>
    rcases p with ⟨k0, v0⟩
    by_cases h : k0 = k
    · simp [dictSet, dictGet, h]
    · simp [dictSet, dictGet, h, ih]

theorem dictGet_dictSet_other (d : Dict) (k k' : String) (v : JVal)
    (h : k' ≠ k) : dictGet (dictSet d k v) k' = dictGet d k' := by
  induction d with
  | nil => simp [dictSet, dictGet, Ne.symm h]
  | cons p rest ih =>
    rcases p with ⟨k0, v0⟩
    by_cases h0 : k0 = k
    · subst h0
      simp [dictSet, dictGet, Ne.symm h]
    · by_cases h1 : k0 = k'
      · simp [dictSet, dictGet, h0, h1, h]
      · simp [dictSet, dictGet, h0, h1, ih]

theorem dictGet_none_of_not_mem (d : Dict) (k : String)
    (h : k ∉ d.map Prod.fst) : dictGet d k = none := by
  induction d with
  | nil => simp [dictGet]
  | cons p rest ih =>
    rcases p with ⟨k0, v0⟩
    simp only [List.map_cons, List.mem_cons] at h
    push_neg at h
    simp [dictGet, Ne.symm h.1, ih h.2]

theorem dictGet_mem_of_some (d : Dict) (k : String) (v : JVal)
    (h : dictGet d k = some v) : k ∈ d.map Prod.fst := by
  by_contra hk
  rw [dictGet_none_of_not_mem d k hk] at h
  exact Option.noConfusion h

theorem dictGet_ne_none_of_mem (d : Dict) (k : String)
    (h : k ∈ d.map Prod.fst) : dictGet d k ≠ none := by
  induction d with
  | nil => simp at h
  | cons p rest ih =>
    rcases p with ⟨k0, v0⟩
    by_cases hq : k0 = k
    · simp [dictGet, hq]
    · simp only [List.map_cons, List.mem_cons] at h
      rcases h with h | h
      · exact absurd h.symm hq
      · simpa [dictGet, hq] using ih h

/-- Updating with pairs whose keys avoid `k` does not change `k`'s value. -/
theorem dictGet_dictUpdate_not_mem (stored : Dict) (D : Dict) (k : String)
    (h : k ∉ stored.map Prod.fst) :
    dictGet (dictUpdate D stored) k = dictGet D k := by
  induction stored generalizing D with
  | nil => simp [dictUpdate]
  | cons p rest ih =>
    simp only [List.map_cons, List.mem_cons] at h
    push_neg at h
    have hstep : dictUpdate D (p :: rest) = dictUpdate (dictSet D p.1 p.2) rest := by
      simp [dictUpdate]
    rw [hstep, ih _ h.2]
    exact dictGet_dictSet_other D p.1 k p.2 h.1

/-- If `stored` has no duplicate keys, its value for `k` survives the merge. -/
theorem dictGet_dictUpdate_of_some (stored : Dict) (D : Dict) (k : String)
    (v : JVal) (hnd : (stored.map Prod.fst).Nodup)
    (h : dictGet stored k = some v) :
    dictGet (dictUpdate D stored) k = some v := by
  induction stored generalizing D with
  | nil => simp [dictGet] at h
  | cons p rest ih =>
    rcases p with ⟨k0, v0⟩
    have hstep : dictUpdate D ((k0, v0) :: rest) = dictUpdate (dictSet D k0 v0) rest := by
      simp [dictUpdate]
    simp only [List.map_cons, List.nodup_cons] at hnd
    by_cases hk : k0 = k
    · subst hk
      simp [dictGet] at h
      rw [hstep, dictGet_dictUpdate_not_mem _ _ _ hnd.1, dictGet_dictSet_self]
      exact congrArg some h
    · simp only [dictGet, if_neg hk] at h
      rw [hstep]
      exact ih _ hnd.2 h

/-- Merging never un-maps a key that `D` maps. -/
theorem dictGet_dictUpdate_isSome (stored : Dict) (D : Dict) (k : String)
    (h : dictGet D k ≠ none) : dictGet (dictUpdate D stored) k ≠ none := by
  induction stored generalizing D with
  | nil => simpa [dictUpdate] using h
  | cons p rest ih =>
    have hstep : dictUpdate D (p :: rest) = dictUpdate (dictSet D p.1 p.2) rest := by
      simp [dictUpdate]
    rw [hstep]
    apply ih
    by_cases hk : p.1 = k
    · subst hk; simp [dictGet_dictSet_self]
    · rw [dictGet_dictSet_other _ _ _ _ (Ne.symm hk)]; exact h

/-- When the key is absent, `dictSet` appends it. -/
theorem dictSet_keys_not_mem (d : Dict) (k : String) (v : JVal)
    (h : k ∉ d.map Prod.fst) :
    (dictSet d k v).map Prod.fst = d.map Prod.fst ++ [k] := by
  induction d with
  | nil => simp [dictSet]
  | cons p rest ih =>
    simp only [List.map_cons, List.mem_cons] at h
    push_neg at h
    simp [dictSet, Ne.symm h.1, ih h.2]

/-- When the key is present, `dictSet` keeps the key list. -/
theorem dictSet_keys_mem (d : Dict) (k : String) (v : JVal)
    (h : k ∈ d.map Prod.fst) :
    (dictSet d k v).map Prod.fst = d.map Prod.fst := by
  induction d with
  | nil => simp at h
  | cons p rest ih =>
    by_cases hp : p.1 = k
    · simp [dictSet, hp]
    · simp only [List.map_cons, List.mem_cons] at h
      rcases h with h | h
      · exact absurd h.symm hp
      · simp [dictSet, hp, ih h]

/-- `dictSet` preserves key uniqueness. -/
theorem dictSet_nodup (d : Dict) (k : String) (v : JVal)
    (h : (d.map Prod.fst).Nodup) : ((dictSet d k v).map Prod.fst).Nodup := by
  by_cases hk : k ∈ d.map Prod.fst
  · rw [dictSet_keys_mem d k v hk]; exact h
  · rw [dictSet_keys_not_mem d k v hk]
    refine List.Nodup.append h (List.nodup_singleton k) ?_
    intro a ha hb
    simp only [List.mem_singleton] at hb
    subst hb
    exact hk ha

end TrayConfig

/-!
## Service manager lemmas and claims C5, C6
-/

theorem ServiceManager.run_spec (env : SystemEnv) (p : String)
    (args : List String) (h : env.systemctlPath = some p) :
    ((ServiceManager.run env args).1 = true ↔
      ∃ out, env.exec (p :: "--user" :: args) = .completed 0 out) ∧
    (∀ rc out, env.exec (p :: "--user" :: args) = .completed rc out →
      (ServiceManager.run env args).2 = ServiceManager.pyStripS out) := by
  unfold ServiceManager.run
  rw [h]
  cases hx : env.exec (p :: "--user" :: args) with
  | completed rc out =>
    simp only [hx]
    constructor
    · simp only [beq_iff_eq]
      constructor
      · rintro rfl
        exact ⟨out, rfl⟩
      · rintro ⟨out', h'⟩
        injection h' with h1 h2
    · rintro rc' out' h'
      injection h' with h1 h2
      rw [h2]
  | timedOut => simp [hx]
  | raised msg => simp [hx]

/-- C5: each lifecycle operation runs `systemctl --user <verb>
turing-screen` and returns `True` exactly when that command exits with
code 0; the stripped stdout is what `_run` reports. -/
theorem c5_service_lifecycle (env : SystemEnv) (p : String)
    (h : env.systemctlPath = some p) :
    (ServiceManager.start env = true ↔
      ∃ out, env.exec [p, "--user", "start", "turing-screen"] = .completed 0 out) ∧
    (ServiceManager.stop env = true ↔
      ∃ out, env.exec [p, "--user", "stop", "turing-screen"] = .completed 0 out) ∧
    (ServiceManager.restart env = true ↔
      ∃ out, env.exec [p, "--user", "restart", "turing-screen"] = .completed 0 out) ∧
    (ServiceManager.enable env = true ↔
      ∃ out, env.exec [p, "--user", "enable", "turing-screen"] = .completed 0 out) ∧
    (ServiceManager.disable env = true ↔
      ∃ out, env.exec [p, "--user", "disable", "turing-screen"] = .completed 0 out) ∧
    (ServiceManager.is_active env = true ↔
      ∃ out, env.exec [p, "--user", "is-active", "turing-screen"] = .completed 0 out) ∧
    (ServiceManager.is_enabled env = true ↔
      ∃ out, env.exec [p, "--user", "is-enabled", "turing-screen"] = .completed 0 out) ∧
    (∀ verb rc out, env.exec (p :: "--user" :: verb) = .completed rc out →
      (ServiceManager.run env verb).2 = ServiceManager.pyStripS out) :=
  ⟨(ServiceManager.run_spec env p _ h).1, (ServiceManager.run_spec env p _ h).1,
   (ServiceManager.run_spec env p _ h).1, (ServiceManager.run_spec env p _ h).1,
   (ServiceManager.run_spec env p _ h).1, (ServiceManager.run_spec env p _ h).1,
   (ServiceManager.run_spec env p _ h).1,
   fun verb => (ServiceManager.run_spec env p verb h).2⟩

/-- Environment used by the witnesses: `systemctl` resolved, every spawn
completing with exit code 0 and stdout `" active \n"`. -/
def envOk : SystemEnv :=
  ⟨some "/usr/bin/systemctl", fun _ => .completed 0 " active \n"⟩

theorem c5_service_lifecycle_witness :
    ServiceManager.start envOk = true ∧
    (ServiceManager.run envOk ["start", "turing-screen"]).2 = "active" := by
  have h := c5_service_lifecycle envOk "/usr/bin/systemctl" rfl
  refine ⟨h.1.mpr ⟨" active \n", rfl⟩, ?_⟩
  have := h.2.2.2.2.2.2.2 ["start", "turing-screen"] 0 " active \n" rfl
  rw [this]
  decide

/-- C6: the three process-control failure kinds — `systemctl` not found,
nonzero exit code, and timeout — all make the boolean lifecycle
operations return the same value `False`; the failure kind is recorded
only in the message component of `_run`, which the boolean operations
drop. -/
theorem c6_failures_collapse (env : SystemEnv) :
    (env.systemctlPath = none →
      ServiceManager.start env = false ∧ ServiceManager.stop env = false ∧
      ServiceManager.restart env = false ∧ ServiceManager.enable env = false ∧
      ServiceManager.disable env = false ∧
      ∀ args, (ServiceManager.run env args).2 = "systemctl not found") ∧
    (∀ p, env.systemctlPath = some p →
      (∀ args, env.exec (p :: "--user" :: args) = .timedOut →
        (ServiceManager.run env args).1 = false ∧
        (ServiceManager.run env args).2 = "Command timed out") ∧
      (∀ args rc out, env.exec (p :: "--user" :: args) = .completed rc out →
        rc ≠ 0 → (ServiceManager.run env args).1 = false) ∧
      (∀ args msg, env.exec (p :: "--user" :: args) = .raised msg →
        (ServiceManager.run env args).1 = false)) := by
  constructor
  · intro h
    refine ⟨?_, ?_, ?_, ?_, ?_, ?_⟩ <;>
      simp [ServiceManager.start, ServiceManager.stop, ServiceManager.restart,
        ServiceManager.enable, ServiceManager.disable, ServiceManager.run, h]
  · intro p hp
    refine ⟨?_, ?_, ?_⟩
    · intro args hx
      constructor <;> simp [ServiceManager.run, hp, hx]
    · intro args rc out hx hrc
      simp [ServiceManager.run, hp, hx, hrc]
    · intro args msg hx
      simp [ServiceManager.run, hp, hx]

/-- Environment with no `systemctl` on the `PATH`. -/
def envNoTool : SystemEnv := ⟨none, fun _ => .completed 0 ""⟩

/-- Environment in which every spawn times out. -/
def envTimeout : SystemEnv :=
  ⟨some "/usr/bin/systemctl", fun _ => .timedOut⟩

/-- Environment in which every spawn exits with code 1. -/
def envFail : SystemEnv :=
  ⟨some "/usr/bin/systemctl", fun _ => .completed 1 "err"⟩

theorem c6_failures_collapse_witness :
    ServiceManager.start envNoTool = false ∧
    (ServiceManager.run envTimeout ["start", "turing-screen"]).1 = false ∧
    (ServiceManager.run envFail ["start", "turing-screen"]).1 = false := by
  refine ⟨((c6_failures_collapse envNoTool).1 rfl).1, ?_, ?_⟩
  · exact (((c6_failures_collapse envTimeout).2 "/usr/bin/systemctl" rfl).1
      ["start", "turing-screen"] rfl).1
  · exact (((c6_failures_collapse envFail).2 "/usr/bin/systemctl" rfl).2.1
      ["start", "turing-screen"] 1 "err" rfl (by decide))

/-!
## Claims C7 and C9 (`TrayConfig`)
-/

/-- C7: `TrayConfig.set` updates the in-memory record so that `get`
returns the new value, writes the whole record to the preferences file,
leaves every other key unchanged, and a `TrayConfig` freshly constructed
from that file sees the value again.  The hypothesis that the record's
keys are unique is the Python `dict` invariant. -/
theorem c7_set_roundtrip (d : Dict) (k : String) (v : JVal)
    (hnd : (d.map Prod.fst).Nodup) :
    TrayConfig.get (TrayConfig.set d k v).1 k = some v ∧
    (TrayConfig.set d k v).2 = TrayFile.jsonObj (TrayConfig.set d k v).1 ∧
    (∀ k', k' ≠ k →
      TrayConfig.get (TrayConfig.set d k v).1 k' = TrayConfig.get d k') ∧
    TrayConfig.load (TrayConfig.set d k v).2 =
      .ok (TrayConfig.dictUpdate TrayConfig.DEFAULTS (TrayConfig.set d k v).1) ∧
    TrayConfig.get
      (TrayConfig.dictUpdate TrayConfig.DEFAULTS (TrayConfig.set d k v).1) k =
      some v := by
  refine ⟨TrayConfig.dictGet_dictSet_self d k v, rfl, ?_, rfl, ?_⟩
  · intro k' hk'
    exact TrayConfig.dictGet_dictSet_other d k k' v hk'
  · exact TrayConfig.dictGet_dictUpdate_of_some _ _ _ _
      (TrayConfig.dictSet_nodup d k v hnd)
      (TrayConfig.dictGet_dictSet_self d k v)

theorem c7_set_roundtrip_witness :
    TrayConfig.get
      (TrayConfig.set TrayConfig.DEFAULTS "language" (.str "en_US")).1
      "language" = some (.str "en_US") ∧
    TrayConfig.get
      (TrayConfig.dictUpdate TrayConfig.DEFAULTS
        (TrayConfig.set TrayConfig.DEFAULTS "language" (.str "en_US")).1)
      "language" = some (.str "en_US") := by
  have h := c7_set_roundtrip TrayConfig.DEFAULTS "language" (.str "en_US")
    (by simp [TrayConfig.DEFAULTS])
  exact ⟨h.1, h.2.2.2.2⟩

/-- C9 counterexample: a preferences file that holds valid JSON which is
not an object (e.g. the file `5` or `"hello"`) parses, but
`dict.update` then raises an uncaught `TypeError`/`ValueError`, so
`TrayConfig` construction fails instead of keeping or merging defaults. -/
theorem c9_counterexample : TrayConfig.load TrayFile.jsonOther = .error () :=
  rfl

/-- C9 (amended): construction keeps every default when the file is
missing, unreadable or invalid JSON; when the file parses to an object,
stored keys override defaults, keys absent from the file keep their
default, and no key of `DEFAULTS` is ever unmapped — but a file that
parses to a non-object JSON value makes construction raise. -/
theorem c9_load_merge (f : TrayFile) :
    ((f = .missing ∨ f = .unreadable ∨ f = .invalidJson) →
      TrayConfig.load f = .ok TrayConfig.DEFAULTS) ∧
    (∀ stored, f = .jsonObj stored →
      TrayConfig.load f = .ok (TrayConfig.dictUpdate TrayConfig.DEFAULTS stored) ∧
      (∀ k v, (stored.map Prod.fst).Nodup → TrayConfig.dictGet stored k = some v →
        TrayConfig.dictGet (TrayConfig.dictUpdate TrayConfig.DEFAULTS stored) k =
          some v) ∧
      (∀ k, TrayConfig.dictGet stored k = none →
        TrayConfig.dictGet (TrayConfig.dictUpdate TrayConfig.DEFAULTS stored) k =
          TrayConfig.dictGet TrayConfig.DEFAULTS k) ∧
      (∀ k, TrayConfig.dictGet TrayConfig.DEFAULTS k ≠ none →
        TrayConfig.dictGet (TrayConfig.dictUpdate TrayConfig.DEFAULTS stored) k ≠
          none)) ∧
    (f = .jsonOther → TrayConfig.load f = .error ()) := by
  refine ⟨?_, ?_, ?_⟩
  · rintro (rfl | rfl | rfl) <;> rfl
  · rintro stored rfl
    refine ⟨rfl, ?_, ?_, ?_⟩
    · intro k v hnd hk
      exact TrayConfig.dictGet_dictUpdate_of_some stored _ k v hnd hk
    · intro k hk
      have : k ∉ stored.map Prod.fst := by
        intro hm
        exact TrayConfig.dictGet_ne_none_of_mem stored k hm hk
      exact TrayConfig.dictGet_dictUpdate_not_mem stored _ k this
    · intro k hk
      exact TrayConfig.dictGet_dictUpdate_isSome stored _ k hk
  · rintro rfl; rfl

theorem c9_load_merge_witness :
    TrayConfig.load .invalidJson = .ok TrayConfig.DEFAULTS ∧
    TrayConfig.dictGet
      (TrayConfig.dictUpdate TrayConfig.DEFAULTS [("language", .str "es_ES")])
      "language" = some (.str "es_ES") ∧
    TrayConfig.dictGet
      (TrayConfig.dictUpdate TrayConfig.DEFAULTS [("language", .str "es_ES")])
      "poll_interval" = some (.num 5) := by
  have h1 := (c9_load_merge .invalidJson).1 (Or.inr (Or.inr rfl))
  have h2 := (c9_load_merge (.jsonObj [("language", .str "es_ES")])).2.1
    [("language", .str "es_ES")] rfl
  refine ⟨h1, ?_, ?_⟩
  · exact h2.2.1 "language" (.str "es_ES") (by simp) rfl
  · have := h2.2.2.1 "poll_interval" (by simp [TrayConfig.dictGet])
    rw [this]
    rfl

/-!
## Claim C10 (`I18n`)
-/

/-- C10: `t` returns the current-language translation when present, else
the `en_US` fallback, else the key itself; `set_language` with an
unsupported code selects `en_US`. -/
theorem c10_translation_fallback :
    (∀ (tr fb : List (String × String)) (key v : String),
      (I18n.lookupKey tr key = some v → I18n.t tr fb key = v) ∧
      (I18n.lookupKey tr key = none → I18n.lookupKey fb key = some v →
        I18n.t tr fb key = v) ∧
      (I18n.lookupKey tr key = none → I18n.lookupKey fb key = none →
        I18n.t tr fb key = key)) ∧
    (∀ (env : LangEnv) (code : String),
      (code ∉ I18n.SUPPORTED_CODES →
        I18n.set_language env code = ("en_US", I18n.load_file env "en_US")) ∧
      (code ∈ I18n.SUPPORTED_CODES →
        I18n.set_language env code = (code, I18n.load_file env code))) := by
  constructor
  · intro tr fb key v
    refine ⟨?_, ?_, ?_⟩
    · intro h; simp [I18n.t, h]
    · intro h1 h2; simp [I18n.t, h1, h2]
    · intro h1 h2; simp [I18n.t, h1, h2]
  · intro env code
    constructor
    · intro h
      simp [I18n.set_language, h]
    · intro h
      simp [I18n.set_language, h]

/-- Language environment for the witness: only an `en_US` table exists. -/
def envLang : LangEnv :=
  ⟨fun code => if code = "en_US" then some [("menu.start", "Start")] else none⟩

theorem c10_translation_fallback_witness :
    I18n.t [] [("menu.start", "Start")] "menu.start" = "Start" ∧
    I18n.t [] [] "missing.key" = "missing.key" ∧
    I18n.set_language envLang "fr_FR" =
      ("en_US", [("menu.start", "Start")]) := by
  have h1 := (c10_translation_fallback.1 [] [("menu.start", "Start")]
    "menu.start" "Start").2.1 rfl rfl
  have h2 := (c10_translation_fallback.1 [] [] "missing.key" "x").2.2 rfl rfl
  have h3 := (c10_translation_fallback.2 envLang "fr_FR").1 (by decide)
  refine ⟨h1, h2, ?_⟩
  rw [h3]
  rfl

/-!
## `subn`/`search` bridge and claim C2
-/

/-- `re.subn` reports at least one replacement exactly when `re.search`
finds a match. -/
theorem subn_count_ne_zero_iff (ml : Bool) (items : List Item)
    (repl : Caps → Str) (s : Str) :
    (subn ml items repl s).2 ≠ 0 ↔ search ml items s ≠ none := by
  unfold subn search
  show (subnGo s ml items repl (s.length + 1) 0).2 ≠ 0 ↔ _
  unfold subnGo
  have harg : s.length + 1 - 0 = s.length + 1 := rfl
  rw [harg]
  cases hs : searchGo s ml items (s.length + 1) 0 with
  | none => simp
  | some r =>
    rcases r with ⟨b, e, caps⟩
    by_cases he : e ≤ b <;> simp [he]

/-- When `re.search` fails, `re.subn` returns the input unchanged with
count `0`. -/
theorem subn_of_search_none (ml : Bool) (items : List Item)
    (repl : Caps → Str) (s : Str) (h : search ml items s = none) :
    subn ml items repl s = (s, 0) := by
  unfold subn
  unfold subnGo
  have harg : s.length + 1 - 0 = s.length + 1 := rfl
  rw [harg]
  unfold search at h
  rw [h]
  simp

/-- C2: `set_orientation` rejects every value outside `{0,1,2,3}` without
touching the file; for an accepted value it returns `True` exactly when
the `DISPLAY_ORIENTATION` pattern occurs in `config.yaml`, and leaves the
file untouched (returning `False`) when it does not. -/
theorem c2_set_orientation (file : Option Str) (v : Int) :
    (¬(v = 0 ∨ v = 1 ∨ v = 2 ∨ v = 3) →
      ScreenConfig.set_orientation file v = (false, file)) ∧
    ((v = 0 ∨ v = 1 ∨ v = 2 ∨ v = 3) →
      (search true orientItems (ScreenConfig.read file) ≠ none →
        (ScreenConfig.set_orientation file v).1 = true) ∧
      (search true orientItems (ScreenConfig.read file) = none →
        ScreenConfig.set_orientation file v = (false, file))) := by
  constructor
  · intro h
    simp [ScreenConfig.set_orientation, h]
  · intro h
    constructor
    · intro hs
      have hc := (subn_count_ne_zero_iff true orientItems
        (fun caps => sliceStr (ScreenConfig.read file) caps.1 caps.2 ++
          (toString v).toList) (ScreenConfig.read file)).2 hs
      simp only [String.toList] at hc
      simp [ScreenConfig.set_orientation, h, hc]
    · intro hs
      have hc := subn_of_search_none true orientItems
        (fun caps => sliceStr (ScreenConfig.read file) caps.1 caps.2 ++
          (toString v).toList) (ScreenConfig.read file) hs
      simp only [String.toList] at hc
      simp [ScreenConfig.set_orientation, h, hc]

theorem c2_set_orientation_witness :
    ScreenConfig.set_orientation (some "DISPLAY_ORIENTATION: 1\n".toList) 7 =
      (false, some "DISPLAY_ORIENTATION: 1\n".toList) ∧
    (ScreenConfig.set_orientation (some "DISPLAY_ORIENTATION: 1\n".toList) 2).1 =
      true ∧
    ScreenConfig.set_orientation (some "no such key\n".toList) 2 =
      (false, some "no such key\n".toList) := by
  refine ⟨?_, ?_, ?_⟩
  · exact (c2_set_orientation (some "DISPLAY_ORIENTATION: 1\n".toList) 7).1
      (by decide)
  · exact ((c2_set_orientation (some "DISPLAY_ORIENTATION: 1\n".toList) 2).2
      (by decide)).1 (by decide)
  · exact ((c2_set_orientation (some "no such key\n".toList) 2).2
      (by decide)).2 (by decide)

/-!
## Counterexamples for claims C1, C3, C4
-/

/-- C1 counterexample.  (a) With the empty theme name (which satisfies
every stated character condition) on `"THEME: old\nfoo: bar\n"`,
`set_theme` succeeds but `get_current_theme` then returns `"foo: bar"`.
(b) With the nonempty name `"name"` on `"THEME:\n\nTHEME: \"abc\"\n"` — a
file containing the line `THEME: "abc"`, which matches the THEME field
pattern — `set_theme` succeeds but `get_current_theme` returns
`"THEME: name"`: the valueless `THEME:` key on the first line lets the
reading pattern's `\s*` cross the line break and capture the whole
rewritten line.  So the write/read round trip fails in both cases. -/
theorem c1_counterexample :
    ((ScreenConfig.set_theme (some "THEME: old\nfoo: bar\n".toList) []).1 =
      true ∧
     ScreenConfig.get_current_theme
       (ScreenConfig.set_theme (some "THEME: old\nfoo: bar\n".toList) []).2 =
       some "foo: bar".toList) ∧
    (search true themeSubItems "THEME: \"abc\"".toList ≠ none ∧
     (ScreenConfig.set_theme (some "THEME:\n\nTHEME: \"abc\"\n".toList)
        "name".toList).1 = true ∧
     ScreenConfig.get_current_theme
       (ScreenConfig.set_theme (some "THEME:\n\nTHEME: \"abc\"\n".toList)
          "name".toList).2 = some "THEME: name".toList ∧
     "THEME: name".toList ≠ "name".toList) := by decide

/-- C3 counterexample: a `DISPLAY_ORIENTATION` line carrying `7` makes
`get_orientation` return `7`, outside the claimed enum range 0–3 — the
code parses whatever integer the line holds and never clamps it. -/
theorem c3_counterexample :
    ScreenConfig.get_orientation (some "DISPLAY_ORIENTATION: 7\n".toList) = 7 ∧
    ¬ ScreenConfig.get_orientation (some "DISPLAY_ORIENTATION: 7\n".toList) ≤ 3 := by
  decide

/-- C4 counterexample: on `"THEME: a\n\nB: c\n"`, `set_theme "x"`
produces `"THEME: x\nB: c\n"`: the match's trailing `\s*$` swallowed the
following blank line, so a line other than the THEME line (the blank one)
is not left byte-for-byte unchanged. -/
theorem c4_counterexample :
    ScreenConfig.set_theme (some "THEME: a\n\nB: c\n".toList) "x".toList =
      (true, some "THEME: x\nB: c\n".toList) ∧
    "THEME: x\nB: c\n".toList ≠ "THEME: x\n\nB: c\n".toList := by decide

/-!
## Engine lemma layer: characters, runs, candidate lists, `firstSome`
-/

theorem charAt?_lt (s : Str) (i : Nat) (c : Char) (h : charAt? s i = some c) :
    i < s.length :=
  (List.getElem?_eq_some.mp h).1

theorem charAt?_eq_none (s : Str) (i : Nat) (h : s.length ≤ i) :
    charAt? s i = none :=
  List.getElem?_eq_none h

theorem charAt?_drop (s : Str) (i j : Nat) :
    charAt? (s.drop i) j = charAt? s (i + j) :=
  List.getElem?_drop s i j

theorem charAt?_append_left (a b : Str) (i : Nat) (h : i < a.length) :
    charAt? (a ++ b) i = charAt? a i :=
  List.getElem?_append_left h

theorem charAt?_append_right (a b : Str) (i : Nat) (h : a.length ≤ i) :
    charAt? (a ++ b) i = charAt? b (i - a.length) :=
  List.getElem?_append_right h

theorem runLen_le_length (p : Char → Bool) (l : Str) : runLen p l ≤ l.length := by
  induction l with
  | nil => simp [runLen]
  | cons c cs ih =>
    by_cases h : p c
    · simpa [runLen, h] using ih
    · simp [runLen, h]

theorem runLen_sat (p : Char → Bool) (l : Str) (j : Nat)
    (h : j < runLen p l) : (charAt? l j).any p = true := by
  induction l generalizing j with
  | nil => simp [runLen] at h
  | cons c cs ih =>
    by_cases hc : p c
    · cases j with
      | zero => simp [charAt?, hc]
      | succ j' =>
        rw [runLen, if_pos hc] at h
        have := ih j' (Nat.lt_of_succ_lt_succ h)
        simpa [charAt?] using this
    · rw [runLen, if_neg hc] at h
      exact absurd h (Nat.not_lt_zero j)

theorem runLen_stop (p : Char → Bool) (l : Str) :
    (charAt? l (runLen p l)).any p = false := by
  induction l with
  | nil => simp [runLen, charAt?]
  | cons c cs ih =>
    by_cases hc : p c
    · rw [runLen, if_pos hc]
      simpa [charAt?] using ih
    · rw [runLen, if_neg hc]
      simp [charAt?, hc]

theorem runLen_eq_of (p : Char → Bool) (l : Str) (k : Nat)
    (hsat : ∀ j, j < k → (charAt? l j).any p = true)
    (hstop : (charAt? l k).any p = false) : runLen p l = k := by
  rcases Nat.lt_trichotomy (runLen p l) k with h | h | h
  · have := hsat _ h
    rw [runLen_stop p l] at this
    exact absurd this (by simp)
  · exact h
  · have := runLen_sat p l k h
    rw [hstop] at this
    exact absurd this (by simp)

theorem runLenAt_sat (p : Char → Bool) (s : Str) (i j : Nat)
    (h : j < runLenAt p s i) : (charAt? s (i + j)).any p = true := by
  have := runLen_sat p (s.drop i) j h
  rwa [charAt?_drop] at this

theorem runLenAt_stop (p : Char → Bool) (s : Str) (i : Nat) :
    (charAt? s (i + runLenAt p s i)).any p = false := by
  have := runLen_stop p (s.drop i)
  rwa [charAt?_drop] at this

theorem runLenAt_eq_of (p : Char → Bool) (s : Str) (i k : Nat)
    (hsat : ∀ j, j < k → (charAt? s (i + j)).any p = true)
    (hstop : (charAt? s (i + k)).any p = false) : runLenAt p s i = k := by
  refine runLen_eq_of p (s.drop i) k ?_ ?_
  · intro j hj
    rw [charAt?_drop]
    exact hsat j hj
  · rw [charAt?_drop]
    exact hstop

theorem runLenAt_le (p : Char → Bool) (s : Str) (i : Nat) :
    i + runLenAt p s i ≤ s.length ∨ s.length ≤ i := by
  rcases Nat.le_total i s.length with h | h
  · left
    have h2 := runLen_le_length p (s.drop i)
    rw [List.length_drop] at h2
    have h3 : runLenAt p s i = runLen p (s.drop i) := rfl
    omega
  · right; exact h

theorem mem_descList (j k : Nat) : j ∈ descList k ↔ j ≤ k := by
  induction k with
  | zero => simp [descList]
  | succ k' ih =>
    simp only [descList, List.mem_cons, ih]
    omega

theorem mem_descPos (j k : Nat) : j ∈ descPos k ↔ 1 ≤ j ∧ j ≤ k := by
  induction k with
  | zero =>
    simp only [descPos, List.not_mem_nil, false_iff]
    omega
  | succ k' ih =>
    simp only [descPos, List.mem_cons, ih]
    omega

theorem mem_ascList (j k : Nat) : j ∈ ascList k ↔ j ≤ k := by
  rw [ascList, List.mem_reverse]
  exact mem_descList j k

theorem descList_cons (k : Nat) : ∃ t, descList k = k :: t := by
  cases k with
  | zero => exact ⟨[], rfl⟩
  | succ k' => exact ⟨descList k', rfl⟩

theorem firstSome_eq_some {α : Type} (f : Nat → Option α) (l : List Nat)
    (r : α) (h : firstSome f l = some r) : ∃ j ∈ l, f j = some r := by
  induction l with
  | nil => simp [firstSome] at h
  | cons j js ih =>
    rw [firstSome] at h
    cases hj : f j with
    | some r' =>
      rw [hj] at h
      exact ⟨j, List.mem_cons_self j js, hj.trans h⟩
    | none =>
      rw [hj] at h
      rcases ih h with ⟨j', hj', hf⟩
      exact ⟨j', List.mem_cons_of_mem j hj', hf⟩

theorem firstSome_eq_none {α : Type} (f : Nat → Option α) (l : List Nat) :
    firstSome f l = none ↔ ∀ j ∈ l, f j = none := by
  induction l with
  | nil => simp [firstSome]
  | cons j js ih =>
    rw [firstSome]
    cases hj : f j with
    | some r => simp [hj]
    | none => simpa [hj] using ih

theorem firstSome_head {α : Type} (f : Nat → Option α) (j : Nat)
    (l : List Nat) (r : α) (h : f j = some r) :
    firstSome f (j :: l) = some r := by
  rw [firstSome, h]

/-!
## `matchItems`: inversion and construction lemmas
-/

theorem matchItems_nil (s : Str) (ml : Bool) (i : Nat) (caps : Caps) :
    matchItems s ml [] i caps = some (i, caps) := rfl

theorem matchItems_bol_inv (s : Str) (ml : Bool) (r : List Item) (i : Nat)
    (caps : Caps) (R : Nat × Caps)
    (h : matchItems s ml (.bol :: r) i caps = some R) :
    isBol s i = true ∧ matchItems s ml r i caps = some R := by
  rw [matchItems] at h
  by_cases hb : isBol s i
  · exact ⟨hb, by rwa [if_pos hb] at h⟩
  · rw [if_neg hb] at h
    exact absurd h (by simp)

theorem matchItems_bol_intro (s : Str) (ml : Bool) (r : List Item) (i : Nat)
    (caps : Caps) (R : Nat × Caps) (hb : isBol s i = true)
    (h : matchItems s ml r i caps = some R) :
    matchItems s ml (.bol :: r) i caps = some R := by
  rw [matchItems, if_pos hb]
  exact h

theorem matchItems_eol_inv (s : Str) (ml : Bool) (r : List Item) (i : Nat)
    (caps : Caps) (R : Nat × Caps)
    (h : matchItems s ml (.eol :: r) i caps = some R) :
    isEol ml s i = true ∧ matchItems s ml r i caps = some R := by
  rw [matchItems] at h
  by_cases hb : isEol ml s i
  · exact ⟨hb, by rwa [if_pos hb] at h⟩
  · rw [if_neg hb] at h
    exact absurd h (by simp)

theorem matchItems_eol_intro (s : Str) (ml : Bool) (r : List Item) (i : Nat)
    (caps : Caps) (R : Nat × Caps) (hb : isEol ml s i = true)
    (h : matchItems s ml r i caps = some R) :
    matchItems s ml (.eol :: r) i caps = some R := by
  rw [matchItems, if_pos hb]
  exact h

theorem matchItems_grpOpen_eq (s : Str) (ml : Bool) (r : List Item) (i : Nat)
    (caps : Caps) :
    matchItems s ml (.grpOpen :: r) i caps = matchItems s ml r i (i, caps.2) :=
  rfl

theorem matchItems_grpClose_eq (s : Str) (ml : Bool) (r : List Item) (i : Nat)
    (caps : Caps) :
    matchItems s ml (.grpClose :: r) i caps =
      matchItems s ml r i (caps.1, i) := rfl

theorem firstSome_singleton {α : Type} (f : Nat → Option α) (j : Nat) :
    firstSome f [j] = f j := by
  rw [firstSome]
  cases h : f j with
  | some r => rfl
  | none => rw [firstSome]

theorem matchItems_lit_inv (s : Str) (ml : Bool) (c : Char) (r : List Item)
    (i : Nat) (caps : Caps) (R : Nat × Caps)
    (h : matchItems s ml (.lit c :: r) i caps = some R) :
    charAt? s i = some c ∧ matchItems s ml r (i + 1) caps = some R := by
  rw [matchItems] at h
  rcases firstSome_eq_some _ _ _ h with ⟨j, hj, hf⟩
  rw [cands] at hj
  by_cases hc : charAt? s i == some c
  · rw [if_pos hc] at hj
    simp only [List.mem_singleton] at hj
    subst hj
    exact ⟨beq_iff_eq.mp hc, by simpa using hf⟩
  · rw [if_neg hc] at hj
    simp at hj

theorem matchItems_lit_intro (s : Str) (ml : Bool) (c : Char) (r : List Item)
    (i : Nat) (caps : Caps) (R : Nat × Caps) (hc : charAt? s i = some c)
    (h : matchItems s ml r (i + 1) caps = some R) :
    matchItems s ml (.lit c :: r) i caps = some R := by
  rw [matchItems, cands, if_pos (beq_iff_eq.mpr hc), firstSome_singleton]
  simpa using h

theorem matchItems_star_inv (s : Str) (ml : Bool) (p : Char → Bool)
    (r : List Item) (i : Nat) (caps : Caps) (R : Nat × Caps)
    (h : matchItems s ml (.star p :: r) i caps = some R) :
    ∃ j, j ≤ runLenAt p s i ∧ matchItems s ml r (i + j) caps = some R := by
  rw [matchItems] at h
  rcases firstSome_eq_some _ _ _ h with ⟨j, hj, hf⟩
  rw [cands] at hj
  exact ⟨j, (mem_descList j _).mp hj, hf⟩

theorem matchItems_star_max_intro (s : Str) (ml : Bool) (p : Char → Bool)
    (r : List Item) (i : Nat) (caps : Caps) (R : Nat × Caps)
    (h : matchItems s ml r (i + runLenAt p s i) caps = some R) :
    matchItems s ml (.star p :: r) i caps = some R := by
  rw [matchItems, cands]
  rcases descList_cons (runLenAt p s i) with ⟨t, ht⟩
  rw [ht]
  exact firstSome_head _ _ _ _ h

theorem matchItems_plus_inv (s : Str) (ml : Bool) (p : Char → Bool)
    (r : List Item) (i : Nat) (caps : Caps) (R : Nat × Caps)
    (h : matchItems s ml (.plus p :: r) i caps = some R) :
    ∃ j, 1 ≤ j ∧ j ≤ runLenAt p s i ∧
      matchItems s ml r (i + j) caps = some R := by
  rw [matchItems] at h
  rcases firstSome_eq_some _ _ _ h with ⟨j, hj, hf⟩
  rw [cands] at hj
  rcases (mem_descPos j _).mp hj with ⟨h1, h2⟩
  exact ⟨j, h1, h2, hf⟩

theorem matchItems_plus_max_intro (s : Str) (ml : Bool) (p : Char → Bool)
    (r : List Item) (i : Nat) (caps : Caps) (R : Nat × Caps)
    (hk : 1 ≤ runLenAt p s i)
    (h : matchItems s ml r (i + runLenAt p s i) caps = some R) :
    matchItems s ml (.plus p :: r) i caps = some R := by
  rw [matchItems, cands]
  rcases Nat.exists_eq_add_of_le hk with ⟨k', hk'⟩
  rw [hk', Nat.add_comm 1 k', descPos]
  refine firstSome_head _ _ _ _ ?_
  show matchItems s ml r (i + (k' + 1)) caps = some R
  rw [show k' + 1 = runLenAt p s i by omega]
  exact h

theorem matchItems_opt_inv (s : Str) (ml : Bool) (p : Char → Bool)
    (r : List Item) (i : Nat) (caps : Caps) (R : Nat × Caps)
    (h : matchItems s ml (.opt p :: r) i caps = some R) :
    matchItems s ml r i caps = some R ∨
      ((charAt? s i).any p = true ∧
        matchItems s ml r (i + 1) caps = some R) := by
  rw [matchItems] at h
  rcases firstSome_eq_some _ _ _ h with ⟨j, hj, hf⟩
  rw [cands] at hj
  by_cases hc : (charAt? s i).any p
  · rw [if_pos hc] at hj
    rcases List.mem_cons.mp hj with rfl | hj
    · exact Or.inr ⟨hc, by simpa using hf⟩
    · simp only [List.mem_singleton] at hj
      subst hj
      exact Or.inl (by simpa using hf)
  · rw [if_neg hc] at hj
    simp only [List.mem_singleton] at hj
    subst hj
    exact Or.inl (by simpa using hf)

theorem matchItems_opt_skip_intro (s : Str) (ml : Bool) (p : Char → Bool)
    (r : List Item) (i : Nat) (caps : Caps) (R : Nat × Caps)
    (hc : (charAt? s i).any p = false)
    (h : matchItems s ml r i caps = some R) :
    matchItems s ml (.opt p :: r) i caps = some R := by
  rw [matchItems, cands, if_neg (by simp [hc]), firstSome_singleton]
  simpa using h

theorem matchItems_opt_take_intro (s : Str) (ml : Bool) (p : Char → Bool)
    (r : List Item) (i : Nat) (caps : Caps) (R : Nat × Caps)
    (hc : (charAt? s i).any p = true)
    (h : matchItems s ml r (i + 1) caps = some R) :
    matchItems s ml (.opt p :: r) i caps = some R := by
  rw [matchItems, cands, if_pos hc]
  exact firstSome_head _ _ _ _ h

/-!
## `matchItems`: structural facts
-/

theorem matchItems_mono (s : Str) (ml : Bool) (items : List Item) :
    ∀ i caps e c, matchItems s ml items i caps = some (e, c) → i ≤ e := by
  induction items with
  | nil =>
    intro i caps e c h
    rw [matchItems_nil] at h
    cases h
    exact Nat.le_refl i
  | cons it rest ih =>
    intro i caps e c h
    cases it with
    | bol =>
      obtain ⟨_, h2⟩ := matchItems_bol_inv _ _ _ _ _ _ h
      exact ih _ _ _ _ h2
    | eol =>
      obtain ⟨_, h2⟩ := matchItems_eol_inv _ _ _ _ _ _ h
      exact ih _ _ _ _ h2
    | grpOpen =>
      rw [matchItems_grpOpen_eq] at h
      exact ih _ _ _ _ h
    | grpClose =>
      rw [matchItems_grpClose_eq] at h
      exact ih _ _ _ _ h
    | lit c' =>
      rw [matchItems] at h
      rcases firstSome_eq_some _ _ _ h with ⟨j, _, hf⟩
      have := ih _ _ _ _ hf
      omega
    | cls p =>
      rw [matchItems] at h
      rcases firstSome_eq_some _ _ _ h with ⟨j, _, hf⟩
      have := ih _ _ _ _ hf
      omega
    | star p =>
      rw [matchItems] at h
      rcases firstSome_eq_some _ _ _ h with ⟨j, _, hf⟩
      have := ih _ _ _ _ hf
      omega
    | starL p =>
      rw [matchItems] at h
      rcases firstSome_eq_some _ _ _ h with ⟨j, _, hf⟩
      have := ih _ _ _ _ hf
      omega
    | plus p =>
      rw [matchItems] at h
      rcases firstSome_eq_some _ _ _ h with ⟨j, _, hf⟩
      have := ih _ _ _ _ hf
      omega
    | opt p =>
      rw [matchItems] at h
      rcases firstSome_eq_some _ _ _ h with ⟨j, _, hf⟩
      have := ih _ _ _ _ hf
      omega

/-- Any consumed length offered by `cands` stays within the string. -/
theorem cands_within (s : Str) (i : Nat) (it : Item) (j : Nat)
    (hi : i ≤ s.length) (hj : j ∈ cands s i it) : i + j ≤ s.length := by
  cases it with
  | lit c =>
    rw [cands] at hj
    by_cases hc : charAt? s i == some c
    · rw [if_pos hc] at hj
      simp only [List.mem_singleton] at hj
      subst hj
      have := charAt?_lt s i c (beq_iff_eq.mp hc)
      omega
    · rw [if_neg hc] at hj
      simp at hj
  | cls p =>
    rw [cands] at hj
    by_cases hc : (charAt? s i).any p
    · rw [if_pos hc] at hj
      simp only [List.mem_singleton] at hj
      subst hj
      cases hcc : charAt? s i with
      | some c => have := charAt?_lt s i c hcc; omega
      | none => rw [hcc] at hc; simp [Option.any] at hc
    · rw [if_neg hc] at hj
      simp at hj
  | star p =>
    rw [cands] at hj
    have h1 := (mem_descList j _).mp hj
    have h2 := runLen_le_length p (s.drop i)
    rw [List.length_drop] at h2
    have h3 : runLenAt p s i = runLen p (s.drop i) := rfl
    omega
  | starL p =>
    rw [cands] at hj
    have h1 := (mem_ascList j _).mp hj
    have h2 := runLen_le_length p (s.drop i)
    rw [List.length_drop] at h2
    have h3 : runLenAt p s i = runLen p (s.drop i) := rfl
    omega
  | plus p =>
    rw [cands] at hj
    have h1 := ((mem_descPos j _).mp hj).2
    have h2 := runLen_le_length p (s.drop i)
    rw [List.length_drop] at h2
    have h3 : runLenAt p s i = runLen p (s.drop i) := rfl
    omega
  | opt p =>
    rw [cands] at hj
    by_cases hc : (charAt? s i).any p
    · rw [if_pos hc] at hj
      cases hcc : charAt? s i with
      | some c =>
        have hl := charAt?_lt s i c hcc
        rcases List.mem_cons.mp hj with rfl | hj
        · omega
        · simp only [List.mem_singleton] at hj; omega
      | none => rw [hcc] at hc; simp [Option.any] at hc
    · rw [if_neg hc] at hj
      simp only [List.mem_singleton] at hj
      omega
  | bol => simp [cands] at hj; omega
  | eol => simp [cands] at hj; omega
  | grpOpen => simp [cands] at hj; omega
  | grpClose => simp [cands] at hj; omega

theorem matchItems_le_length (s : Str) (ml : Bool) (items : List Item) :
    ∀ i caps e c, i ≤ s.length →
      matchItems s ml items i caps = some (e, c) → e ≤ s.length := by
  induction items with
  | nil =>
    intro i caps e c hi h
    rw [matchItems_nil] at h
    cases h
    exact hi
  | cons it rest ih =>
    intro i caps e c hi h
    cases it with
    | bol =>
      obtain ⟨_, h2⟩ := matchItems_bol_inv _ _ _ _ _ _ h
      exact ih _ _ _ _ hi h2
    | eol =>
      obtain ⟨_, h2⟩ := matchItems_eol_inv _ _ _ _ _ _ h
      exact ih _ _ _ _ hi h2
    | grpOpen =>
      rw [matchItems_grpOpen_eq] at h
      exact ih _ _ _ _ hi h
    | grpClose =>
      rw [matchItems_grpClose_eq] at h
      exact ih _ _ _ _ hi h
    | lit c' =>
      rw [matchItems] at h
      rcases firstSome_eq_some _ _ _ h with ⟨j, hj, hf⟩
      exact ih _ _ _ _ (cands_within s i _ j hi hj) hf
    | cls p =>
      rw [matchItems] at h
      rcases firstSome_eq_some _ _ _ h with ⟨j, hj, hf⟩
      exact ih _ _ _ _ (cands_within s i _ j hi hj) hf
    | star p =>
      rw [matchItems] at h
      rcases firstSome_eq_some _ _ _ h with ⟨j, hj, hf⟩
      exact ih _ _ _ _ (cands_within s i _ j hi hj) hf
    | starL p =>
      rw [matchItems] at h
      rcases firstSome_eq_some _ _ _ h with ⟨j, hj, hf⟩
      exact ih _ _ _ _ (cands_within s i _ j hi hj) hf
    | plus p =>
      rw [matchItems] at h
      rcases firstSome_eq_some _ _ _ h with ⟨j, hj, hf⟩
      exact ih _ _ _ _ (cands_within s i _ j hi hj) hf
    | opt p =>
      rw [matchItems] at h
      rcases firstSome_eq_some _ _ _ h with ⟨j, hj, hf⟩
      exact ih _ _ _ _ (cands_within s i _ j hi hj) hf

/-- Items that manipulate the capture span. -/
def isGrpItem : Item → Bool
  | .grpOpen => true
  | .grpClose => true
  | _ => false

/-- A run over capture-free items returns its input capture span. -/
theorem matchItems_caps_pass (s : Str) (ml : Bool) (items : List Item)
    (hg : items.all (fun it => !isGrpItem it) = true) :
    ∀ i caps e c, matchItems s ml items i caps = some (e, c) → c = caps := by
  induction items with
  | nil =>
    intro i caps e c h
    rw [matchItems_nil] at h
    cases h
    rfl
  | cons it rest ih =>
    rw [List.all_cons, Bool.and_eq_true] at hg
    intro i caps e c h
    cases it with
    | bol =>
      obtain ⟨_, h2⟩ := matchItems_bol_inv _ _ _ _ _ _ h
      exact ih hg.2 _ _ _ _ h2
    | eol =>
      obtain ⟨_, h2⟩ := matchItems_eol_inv _ _ _ _ _ _ h
      exact ih hg.2 _ _ _ _ h2
    | grpOpen => simp [isGrpItem] at hg
    | grpClose => simp [isGrpItem] at hg
    | lit c' =>
      rw [matchItems] at h
      rcases firstSome_eq_some _ _ _ h with ⟨j, _, hf⟩
      exact ih hg.2 _ _ _ _ hf
    | cls p =>
      rw [matchItems] at h
      rcases firstSome_eq_some _ _ _ h with ⟨j, _, hf⟩
      exact ih hg.2 _ _ _ _ hf
    | star p =>
      rw [matchItems] at h
      rcases firstSome_eq_some _ _ _ h with ⟨j, _, hf⟩
      exact ih hg.2 _ _ _ _ hf
    | starL p =>
      rw [matchItems] at h
      rcases firstSome_eq_some _ _ _ h with ⟨j, _, hf⟩
      exact ih hg.2 _ _ _ _ hf
    | plus p =>
      rw [matchItems] at h
      rcases firstSome_eq_some _ _ _ h with ⟨j, _, hf⟩
      exact ih hg.2 _ _ _ _ hf
    | opt p =>
      rw [matchItems] at h
      rcases firstSome_eq_some _ _ _ h with ⟨j, _, hf⟩
      exact ih hg.2 _ _ _ _ hf

theorem firstSome_map_congr {α β : Type} (f g : Nat → Option α) (m : α → β)
    (l : List Nat) (h : ∀ j, (f j).map m = (g j).map m) :
    (firstSome f l).map m = (firstSome g l).map m := by
  induction l with
  | nil => rfl
  | cons j js ih =>
    rw [firstSome, firstSome]
    cases hf : f j with
    | some a =>
      have hm := h j
      rw [hf] at hm
      cases hg : g j with
      | some b => rw [hg] at hm; simpa using hm
      | none => rw [hg] at hm; simp at hm
    | none =>
      have hm := h j
      rw [hf] at hm
      cases hg : g j with
      | some b => rw [hg] at hm; simp at hm
      | none => rw [hg] at hm; exact ih

/-- Success and the end position of a run do not depend on the incoming
capture span (captures are never read back). -/
theorem matchItems_fst_irrel (s : Str) (ml : Bool) (items : List Item) :
    ∀ i c₁ c₂, (matchItems s ml items i c₁).map Prod.fst =
      (matchItems s ml items i c₂).map Prod.fst := by
  induction items with
  | nil => intro i c₁ c₂; rfl
  | cons it rest ih =>
    intro i c₁ c₂
    cases it with
    | bol =>
      rw [matchItems, matchItems]
      by_cases hb : isBol s i
      · rw [if_pos hb, if_pos hb]; exact ih i c₁ c₂
      · rw [if_neg hb, if_neg hb]
    | eol =>
      rw [matchItems, matchItems]
      by_cases hb : isEol ml s i
      · rw [if_pos hb, if_pos hb]; exact ih i c₁ c₂
      · rw [if_neg hb, if_neg hb]
    | grpOpen =>
      rw [matchItems_grpOpen_eq, matchItems_grpOpen_eq]
      exact ih i _ _
    | grpClose =>
      rw [matchItems_grpClose_eq, matchItems_grpClose_eq]
      exact ih i _ _
    | lit c' =>
      rw [matchItems, matchItems]
      exact firstSome_map_congr _ _ _ _ (fun j => ih (i + j) c₁ c₂)
    | cls p =>
      rw [matchItems, matchItems]
      exact firstSome_map_congr _ _ _ _ (fun j => ih (i + j) c₁ c₂)
    | star p =>
      rw [matchItems, matchItems]
      exact firstSome_map_congr _ _ _ _ (fun j => ih (i + j) c₁ c₂)
    | starL p =>
      rw [matchItems, matchItems]
      exact firstSome_map_congr _ _ _ _ (fun j => ih (i + j) c₁ c₂)
    | plus p =>
      rw [matchItems, matchItems]
      exact firstSome_map_congr _ _ _ _ (fun j => ih (i + j) c₁ c₂)
    | opt p =>
      rw [matchItems, matchItems]
      exact firstSome_map_congr _ _ _ _ (fun j => ih (i + j) c₁ c₂)

/-!
## `searchGo`: leftmost-match lemmas
-/

theorem searchGo_some_inv (s : Str) (ml : Bool) (items : List Item) :
    ∀ fuel i b e caps, searchGo s ml items fuel i = some (b, e, caps) →
      i ≤ b ∧ b < i + fuel ∧
      matchItems s ml items b (0, 0) = some (e, caps) ∧
      ∀ q, i ≤ q → q < b → matchItems s ml items q (0, 0) = none := by
  intro fuel
  induction fuel with
  | zero => intro i b e caps h; rw [searchGo] at h; exact absurd h (by simp)
  | succ f ih =>
    intro i b e caps h
    rw [searchGo] at h
    cases hm : matchItems s ml items i (0, 0) with
    | some R =>
      rw [hm] at h
      rcases R with ⟨e', caps'⟩
      injection h with h'
      injection h' with h1 h2
      injection h2 with h3 h4
      subst h1; subst h3; subst h4
      refine ⟨Nat.le_refl i, by omega, hm, ?_⟩
      intro q hq1 hq2
      omega
    | none =>
      rw [hm] at h
      rcases ih (i + 1) b e caps h with ⟨h1, h2, h3, h4⟩
      refine ⟨by omega, by omega, h3, ?_⟩
      intro q hq1 hq2
      rcases Nat.eq_or_lt_of_le hq1 with rfl | hlt
      · exact hm
      · exact h4 q hlt hq2

theorem searchGo_none_inv (s : Str) (ml : Bool) (items : List Item) :
    ∀ fuel i, searchGo s ml items fuel i = none →
      ∀ q, i ≤ q → q < i + fuel → matchItems s ml items q (0, 0) = none := by
  intro fuel
  induction fuel with
  | zero => intro i h q h1 h2; omega
  | succ f ih =>
    intro i h q h1 h2
    rw [searchGo] at h
    cases hm : matchItems s ml items i (0, 0) with
    | some R => rw [hm] at h; exact absurd h (by simp)
    | none =>
      rw [hm] at h
      rcases Nat.eq_or_lt_of_le h1 with rfl | hlt
      · exact hm
      · exact ih (i + 1) h q hlt (by omega)

theorem searchGo_intro (s : Str) (ml : Bool) (items : List Item) :
    ∀ fuel i b e caps, i ≤ b → b < i + fuel →
      matchItems s ml items b (0, 0) = some (e, caps) →
      (∀ q, i ≤ q → q < b → matchItems s ml items q (0, 0) = none) →
      searchGo s ml items fuel i = some (b, e, caps) := by
  intro fuel
  induction fuel with
  | zero => intro i b e caps h1 h2; omega
  | succ f ih =>
    intro i b e caps h1 h2 hm hnone
    rw [searchGo]
    rcases Nat.eq_or_lt_of_le h1 with rfl | hlt
    · rw [hm]
    · rw [hnone i (Nat.le_refl i) hlt]
      exact ih (i + 1) b e caps hlt (by omega) hm
        (fun q hq1 hq2 => hnone q (by omega) hq2)

/-- Characterisation of `search` success. -/
theorem search_some_inv (s : Str) (ml : Bool) (items : List Item)
    (b e : Nat) (caps : Caps)
    (h : search ml items s = some (b, e, caps)) :
    b ≤ s.length ∧ matchItems s ml items b (0, 0) = some (e, caps) ∧
      ∀ q, q < b → matchItems s ml items q (0, 0) = none := by
  rcases searchGo_some_inv s ml items (s.length + 1) 0 b e caps h with
    ⟨_, h2, h3, h4⟩
  exact ⟨by omega, h3, fun q hq => h4 q (Nat.zero_le q) hq⟩

theorem search_intro (s : Str) (ml : Bool) (items : List Item)
    (b e : Nat) (caps : Caps) (hb : b ≤ s.length)
    (hm : matchItems s ml items b (0, 0) = some (e, caps))
    (hnone : ∀ q, q < b → matchItems s ml items q (0, 0) = none) :
    search ml items s = some (b, e, caps) :=
  searchGo_intro s ml items (s.length + 1) 0 b e caps (Nat.zero_le b)
    (by omega) hm (fun q _ hq => hnone q hq)

/-!
## `subn` decomposition: the output is the input with each non-overlapping
leftmost match replaced, all bytes outside the matched spans unchanged.
-/

/-- `SubnSpans i spans out` says: `out` is `s[i:]` with the listed spans —
consecutive, non-overlapping matches of `items` — replaced by `repl` of
their capture, and everything between and after spans copied verbatim. -/
def SubnSpans (s : Str) (ml : Bool) (items : List Item) (repl : Caps → Str) :
    Nat → List (Nat × Nat × Caps) → Str → Prop
  | i, [], out => out = s.drop i
  | i, (b, e, caps) :: rest, out =>
      i ≤ b ∧ b < e ∧ e ≤ s.length ∧
      matchItems s ml items b (0, 0) = some (e, caps) ∧
      ∃ out', out = sliceStr s i b ++ repl caps ++ out' ∧
        SubnSpans s ml items repl e rest out'

theorem subnGo_spans (s : Str) (ml : Bool) (items : List Item)
    (repl : Caps → Str)
    (hne : ∀ q e caps, matchItems s ml items q (0, 0) = some (e, caps) →
      q < e) :
    ∀ fuel i, s.length + 1 - i ≤ fuel → i ≤ s.length →
      ∃ spans, spans.length = (subnGo s ml items repl fuel i).2 ∧
        SubnSpans s ml items repl i spans
          (subnGo s ml items repl fuel i).1 := by
  intro fuel
  induction fuel with
  | zero => intro i hf hi; omega
  | succ f ih =>
    intro i hf hi
    cases hs : searchGo s ml items (s.length + 1 - i) i with
    | none =>
      have hstep : subnGo s ml items repl (f + 1) i = (s.drop i, 0) := by
        simp [subnGo, hs]
      rw [hstep]
      exact ⟨[], rfl, rfl⟩
    | some r =>
      rcases r with ⟨b, e, caps⟩
      rcases searchGo_some_inv s ml items _ _ _ _ _ hs with ⟨hib, hbf, hm, _⟩
      have hbe : b < e := hne b e caps hm
      have hble : b ≤ s.length := by omega
      have hele : e ≤ s.length := matchItems_le_length s ml items b _ e caps hble hm
      have hnotle : ¬ e ≤ b := by omega
      have hfe : s.length + 1 - e ≤ f := by omega
      rcases ih e hfe hele with ⟨spans', hlen', hsp'⟩
      rcases hrec : subnGo s ml items repl f e with ⟨tail, n⟩
      rw [hrec] at hlen' hsp'
      have hstep : subnGo s ml items repl (f + 1) i =
          (sliceStr s i b ++ repl caps ++ tail, n + 1) := by
        simp [subnGo, hs, hnotle, hrec]
      rw [hstep]
      refine ⟨(b, e, caps) :: spans', by simpa using hlen', ?_⟩
      exact ⟨hib, hbe, hele, hm, tail, rfl, hsp'⟩

/-- `subn` spans, at top level. -/
theorem subn_spans (s : Str) (ml : Bool) (items : List Item)
    (repl : Caps → Str)
    (hne : ∀ q e caps, matchItems s ml items q (0, 0) = some (e, caps) →
      q < e) :
    ∃ spans, spans.length = (subn ml items repl s).2 ∧
      SubnSpans s ml items repl 0 spans (subn ml items repl s).1 := by
  have := subnGo_spans s ml items repl hne (s.length + 1) 0 (by omega)
    (Nat.zero_le _)
  simpa [subn] using this

/-!
## Slice lemmas
-/

theorem charAt?_take (s : Str) (i n : Nat) (h : n < i) :
    charAt? (s.take i) n = charAt? s n := by
  show (s.take i)[n]? = s[n]?
  rw [List.getElem?_take, if_pos h]

theorem charAt?_sliceStr (s : Str) (b e j : Nat) (h : j < e - b) :
    charAt? (sliceStr s b e) j = charAt? s (b + j) := by
  rw [sliceStr]
  show charAt? ((s.take e).drop b) j = _
  rw [charAt?_drop, charAt?_take]
  omega

theorem sliceStr_length (s : Str) (b e : Nat) (hbe : b ≤ e)
    (he : e ≤ s.length) : (sliceStr s b e).length = e - b := by
  rw [sliceStr, List.length_drop, List.length_take]
  omega

theorem sliceStr_zero (s : Str) (e : Nat) : sliceStr s 0 e = s.take e := by
  rw [sliceStr, List.drop_zero]

theorem sliceStr_charAt?_eq_none (s : Str) (b e j : Nat) (hbe : b ≤ e)
    (he : e ≤ s.length) (h : e - b ≤ j) :
    charAt? (sliceStr s b e) j = none :=
  charAt?_eq_none _ _ (by rw [sliceStr_length s b e hbe he]; omega)

theorem sliceStr_append_adj (s : Str) (a b c : Nat) (hab : a ≤ b)
    (hbc : b ≤ c) (hc : c ≤ s.length) :
    sliceStr s a b ++ sliceStr s b c = sliceStr s a c := by
  have hb : b ≤ s.length := le_trans hbc hc
  apply List.ext_getElem?
  intro n
  by_cases h1 : n < b - a
  · rw [show ((sliceStr s a b ++ sliceStr s b c)[n]? : Option Char) =
        charAt? (sliceStr s a b ++ sliceStr s b c) n from rfl]
    rw [charAt?_append_left _ _ _ (by rw [sliceStr_length s a b hab hb]; omega)]
    rw [charAt?_sliceStr s a b n h1]
    rw [show ((sliceStr s a c)[n]? : Option Char) = charAt? (sliceStr s a c) n
      from rfl]
    rw [charAt?_sliceStr s a c n (by omega)]
  · rw [show ((sliceStr s a b ++ sliceStr s b c)[n]? : Option Char) =
        charAt? (sliceStr s a b ++ sliceStr s b c) n from rfl]
    rw [charAt?_append_right _ _ _
      (by rw [sliceStr_length s a b hab hb]; omega)]
    rw [sliceStr_length s a b hab hb]
    by_cases h2 : n - (b - a) < c - b
    · rw [charAt?_sliceStr s b c _ h2]
      rw [show ((sliceStr s a c)[n]? : Option Char) = charAt? (sliceStr s a c) n
        from rfl]
      rw [charAt?_sliceStr s a c n (by omega)]
      congr 1
      omega
    · rw [sliceStr_charAt?_eq_none s b c _ hbc hc (by omega)]
      rw [show ((sliceStr s a c)[n]? : Option Char) = charAt? (sliceStr s a c) n
        from rfl]
      rw [sliceStr_charAt?_eq_none s a c n (le_trans hab hbc) hc (by omega)]

/-!
## Structure of matches of the THEME and DISPLAY_ORIENTATION patterns
-/

theorem any_of_charAt (s : Str) (x : Nat) (c : Char) (p : Char → Bool)
    (h : charAt? s x = some c) : (charAt? s x).any p = p c := by
  rw [h]
  rfl

/-- A greedy `\s*` (or any class star) immediately followed by a literal
whose character is outside the class always consumes the maximal run. -/
theorem matchItems_star_lit_inv (s : Str) (ml : Bool) (p : Char → Bool)
    (c : Char) (r : List Item) (i : Nat) (caps : Caps) (R : Nat × Caps)
    (hpc : p c = false)
    (h : matchItems s ml (.star p :: .lit c :: r) i caps = some R) :
    charAt? s (i + runLenAt p s i) = some c ∧
    matchItems s ml (.lit c :: r) (i + runLenAt p s i) caps = some R := by
  rcases matchItems_star_inv _ _ _ _ _ _ _ h with ⟨j, hj, hf⟩
  rcases matchItems_lit_inv _ _ _ _ _ _ _ hf with ⟨hc, _⟩
  rcases Nat.lt_or_ge j (runLenAt p s i) with hlt | hge
  · have hsat := runLenAt_sat p s i j hlt
    rw [any_of_charAt s (i + j) c p hc, hpc] at hsat
    exact absurd hsat (by simp)
  · have : j = runLenAt p s i := Nat.le_antisymm hj hge
    subst this
    exact ⟨hc, hf⟩

/-- The tail of the theme patterns after the capture prefix:
`["']?[^"'\n]+["']?\s*$`. -/
def themeValTail : List Item :=
  [.opt isQuote, .plus isThemeValChar, .opt isQuote, .star isPySpace, .eol]

/-- The theme substitution pattern after `^(\s*`. -/
def themeAfterLws : List Item :=
  [.lit 'T', .lit 'H', .lit 'E', .lit 'M', .lit 'E',
   .star isPySpace, .lit ':', .star isPySpace, .grpClose] ++ themeValTail

theorem themeSubItems_eq :
    themeSubItems = .bol :: .grpOpen :: .star isPySpace :: themeAfterLws := rfl

/-- Any run of the value tail moves strictly forward and ends at an
end-of-line position. -/
theorem themeValTail_inv (s : Str) (ml : Bool) (ge e : Nat) (caps0 : Caps)
    (capsF : Caps)
    (h : matchItems s ml themeValTail ge caps0 = some (e, capsF)) :
    ge < e ∧ isEol ml s e = true ∧ capsF = caps0 := by
  have hcapsF : capsF = caps0 :=
    matchItems_caps_pass s ml themeValTail rfl ge caps0 e capsF h
  rw [themeValTail] at h
  rcases matchItems_opt_inv _ _ _ _ _ _ _ h with h1 | ⟨_, h1⟩
  all_goals {
    first
    | (rcases matchItems_plus_inv _ _ _ _ _ _ _ h1 with ⟨k, hk1, _, h2⟩
       rcases matchItems_opt_inv _ _ _ _ _ _ _ h2 with h3 | ⟨_, h3⟩ <;>
       · rcases matchItems_star_inv _ _ _ _ _ _ _ h3 with ⟨j5, _, h4⟩
         rcases matchItems_eol_inv _ _ _ _ _ _ h4 with ⟨heol, h5⟩
         rw [matchItems_nil] at h5
         injection h5 with h6
         injection h6 with h7 h8
         subst h7
         exact ⟨by omega, heol, hcapsF⟩)
  }

/-- Shape of a `set_theme`-pattern match: after the line start comes the
maximal whitespace run, the literal `THEME`, a maximal whitespace run, the
colon, some whitespace (group 1 closes at `ge`), and a nonempty value
region ending at an end-of-line position `e`.  The run from the `T` is
returned for reuse at other starting positions. -/
theorem themeSub_match_inv (s : Str) (b e : Nat) (caps : Caps)
    (h : matchItems s true themeSubItems b (0, 0) = some (e, caps)) :
    ∃ t q1 ge,
      isBol s b = true ∧
      t = b + runLenAt isPySpace s b ∧
      charAt? s t = some 'T' ∧ charAt? s (t + 1) = some 'H' ∧
      charAt? s (t + 2) = some 'E' ∧ charAt? s (t + 3) = some 'M' ∧
      charAt? s (t + 4) = some 'E' ∧
      q1 = t + 5 + runLenAt isPySpace s (t + 5) ∧
      charAt? s q1 = some ':' ∧
      q1 + 1 ≤ ge ∧
      (∀ x, q1 + 1 ≤ x → x < ge → (charAt? s x).any isPySpace = true) ∧
      caps = (b, ge) ∧
      ge < e ∧
      isEol true s e = true ∧
      matchItems s true themeAfterLws t (b, 0) = some (e, caps) := by
  rw [themeSubItems_eq] at h
  rcases matchItems_bol_inv _ _ _ _ _ _ h with ⟨hbol, h1⟩
  rw [matchItems_grpOpen_eq] at h1
  rw [show themeAfterLws = .lit 'T' :: .lit 'H' :: .lit 'E' :: .lit 'M' ::
    .lit 'E' :: .star isPySpace :: .lit ':' :: .star isPySpace ::
    .grpClose :: themeValTail from rfl] at h1 ⊢
  rcases matchItems_star_lit_inv s true isPySpace 'T' _ b _ _ (by decide) h1
    with ⟨hT, hD⟩
  set t := b + runLenAt isPySpace s b with htdef
  refine ⟨t, ?_⟩
  rcases matchItems_lit_inv _ _ _ _ _ _ _ hD with ⟨_, h2⟩
  rcases matchItems_lit_inv _ _ _ _ _ _ _ h2 with ⟨hH, h3⟩
  rcases matchItems_lit_inv _ _ _ _ _ _ _ h3 with ⟨hE1, h4⟩
  rcases matchItems_lit_inv _ _ _ _ _ _ _ h4 with ⟨hM, h5⟩
  rcases matchItems_lit_inv _ _ _ _ _ _ _ h5 with ⟨hE2, h6⟩
  have hpos : t + 1 + 1 + 1 + 1 + 1 = t + 5 := by omega
  rw [hpos] at h6
  rcases matchItems_star_lit_inv s true isPySpace ':' _ (t + 5) _ _ (by decide)
    h6 with ⟨hColon, h7⟩
  set q1 := t + 5 + runLenAt isPySpace s (t + 5) with hq1def
  refine ⟨q1, ?_⟩
  rcases matchItems_lit_inv _ _ _ _ _ _ _ h7 with ⟨_, h8⟩
  rcases matchItems_star_inv _ _ _ _ _ _ _ h8 with ⟨j3, hj3, h9⟩
  set ge := q1 + 1 + j3 with hgedef
  rw [matchItems_grpClose_eq] at h9
  have hval := themeValTail_inv s true ge e (b, ge) caps h9
  refine ⟨ge, hbol, htdef, hT, ?_, ?_, ?_, ?_, hq1def, hColon, by omega, ?_,
    hval.2.2, by omega, hval.2.1, hD⟩
  · rwa [show t + 1 = t + 1 from rfl] at hH
  · rwa [show t + 1 + 1 = t + 2 by omega] at hE1
  · rwa [show t + 1 + 1 + 1 = t + 3 by omega] at hM
  · rwa [show t + 1 + 1 + 1 + 1 = t + 4 by omega] at hE2
  · intro x hx1 hx2
    have : x - (q1 + 1) < j3 := by omega
    have hs := runLenAt_sat isPySpace s (q1 + 1) (x - (q1 + 1))
      (by omega)
    rwa [show q1 + 1 + (x - (q1 + 1)) = x by omega] at hs

theorem pySpace_codes_not_digit : ∀ n ∈ pySpaceCodes, ¬(48 ≤ n ∧ n ≤ 57) := by
  decide

theorem ws_not_digit (c : Char) (h : isPySpace c = true) :
    isPyDigit c = false := by
  rw [isPySpace] at h
  have hmem : c.toNat ∈ pySpaceCodes := by simpa using h
  have hnd := pySpace_codes_not_digit _ hmem
  have h1 : ¬(48 ≤ c.toNat) ∨ ¬(c.toNat ≤ 57) := by tauto
  rcases h1 with h1 | h1 <;> simp [isPyDigit, h1]

theorem matchItems_lits_inv (s : Str) (ml : Bool) (w : Str) (r : List Item) :
    ∀ i caps R, matchItems s ml (litsOf w ++ r) i caps = some R →
      (∀ j, j < w.length → charAt? s (i + j) = w[j]?) ∧
      matchItems s ml r (i + w.length) caps = some R := by
  induction w with
  | nil =>
    intro i caps R h
    refine ⟨fun j hj => absurd hj (by simp), ?_⟩
    simpa using h
  | cons c w' ih =>
    intro i caps R h
    rw [show litsOf (c :: w') ++ r = .lit c :: (litsOf w' ++ r) from rfl] at h
    rcases matchItems_lit_inv _ _ _ _ _ _ _ h with ⟨hc, h2⟩
    rcases ih (i + 1) caps R h2 with ⟨hw, hrest⟩
    refine ⟨?_, ?_⟩
    · intro j hj
      cases j with
      | zero => simpa using hc
      | succ j' =>
        have := hw j' (by simpa using hj)
        rw [show i + (j' + 1) = i + 1 + j' by omega]
        simpa using this
    · rw [show i + (c :: w').length = i + 1 + w'.length by simp; omega]
      exact hrest

theorem matchItems_lits_intro (s : Str) (ml : Bool) (w : Str) (r : List Item) :
    ∀ i caps R, (∀ j, j < w.length → charAt? s (i + j) = w[j]?) →
      matchItems s ml r (i + w.length) caps = some R →
      matchItems s ml (litsOf w ++ r) i caps = some R := by
  induction w with
  | nil =>
    intro i caps R _ h
    simpa using h
  | cons c w' ih =>
    intro i caps R hw h
    rw [show litsOf (c :: w') ++ r = .lit c :: (litsOf w' ++ r) from rfl]
    refine matchItems_lit_intro _ _ _ _ _ _ _ ?_ ?_
    · simpa using hw 0 (by simp)
    · refine ih (i + 1) caps R ?_ ?_
      · intro j hj
        have := hw (j + 1) (by simpa using Nat.succ_lt_succ hj)
        rw [show i + (j + 1) = i + 1 + j by omega] at this
        simpa using this
      · rw [show i + 1 + w'.length = i + (c :: w').length by simp; omega]
        exact h

/-- The orientation pattern after `^(\s*`. -/
def orientAfterLws : List Item :=
  litsOf "DISPLAY_ORIENTATION".toList ++
  [.star isPySpace, .lit ':', .star isPySpace, .grpClose, .plus isPyDigit]

theorem orientItems_eq :
    orientItems = .bol :: .grpOpen :: .star isPySpace :: orientAfterLws := rfl

/-- Shape of a `DISPLAY_ORIENTATION` pattern match: whitespace, the key
word, whitespace, a colon, whitespace (group 1 closes at `vs`), then the
nonempty digit run ending the match. -/
theorem orient_match_inv (s : Str) (b e : Nat) (caps : Caps)
    (h : matchItems s true orientItems b (0, 0) = some (e, caps)) :
    ∃ t q1 vs,
      isBol s b = true ∧
      t = b + runLenAt isPySpace s b ∧
      (∀ j, j < 19 → charAt? s (t + j) = ("DISPLAY_ORIENTATION".toList)[j]?) ∧
      q1 = t + 19 + runLenAt isPySpace s (t + 19) ∧
      charAt? s q1 = some ':' ∧
      q1 + 1 ≤ vs ∧
      (∀ x, q1 + 1 ≤ x → x < vs → (charAt? s x).any isPySpace = true) ∧
      caps = (b, vs) ∧
      vs < e ∧
      (∀ x, vs ≤ x → x < e → (charAt? s x).any isPyDigit = true) := by
  rw [orientItems_eq] at h
  rcases matchItems_bol_inv _ _ _ _ _ _ h with ⟨hbol, h1⟩
  rw [matchItems_grpOpen_eq] at h1
  rw [show orientAfterLws = .lit 'D' :: (litsOf "ISPLAY_ORIENTATION".toList ++
    [.star isPySpace, .lit ':', .star isPySpace, .grpClose,
     .plus isPyDigit]) from rfl] at h1
  rcases matchItems_star_lit_inv s true isPySpace 'D' _ b _ _ (by decide) h1
    with ⟨hD, hDm⟩
  set t := b + runLenAt isPySpace s b with htdef
  refine ⟨t, ?_⟩
  rcases matchItems_lit_inv _ _ _ _ _ _ _ hDm with ⟨_, h2⟩
  rcases matchItems_lits_inv s true "ISPLAY_ORIENTATION".toList _ _ _ _ h2
    with ⟨hw, h3⟩
  have hlen : ("ISPLAY_ORIENTATION".toList).length = 18 := rfl
  rw [hlen, show t + 1 + 18 = t + 19 by omega] at h3
  rcases matchItems_star_lit_inv s true isPySpace ':' _ (t + 19) _ _ (by decide)
    h3 with ⟨hColon, h4⟩
  set q1 := t + 19 + runLenAt isPySpace s (t + 19) with hq1def
  refine ⟨q1, ?_⟩
  rcases matchItems_lit_inv _ _ _ _ _ _ _ h4 with ⟨_, h5⟩
  rcases matchItems_star_inv _ _ _ _ _ _ _ h5 with ⟨j3, hj3, h6⟩
  set vs := q1 + 1 + j3 with hvsdef
  rw [matchItems_grpClose_eq] at h6
  rcases matchItems_plus_inv _ _ _ _ _ _ _ h6 with ⟨k, hk1, hk2, h7⟩
  rw [matchItems_nil] at h7
  injection h7 with h7'
  injection h7' with h7e h7c
  refine ⟨vs, hbol, htdef, ?_, hq1def, hColon, by omega, ?_, h7c.symm,
    by omega, ?_⟩
  · intro j hj
    cases j with
    | zero => simpa using hD
    | succ j' =>
      have := hw j' (by rw [hlen] at *; omega)
      rw [show t + 1 + j' = t + (j' + 1) by omega] at this
      rw [this, show "DISPLAY_ORIENTATION".toList =
        'D' :: "ISPLAY_ORIENTATION".toList from rfl, List.getElem?_cons_succ]
  · intro x hx1 hx2
    have hs := runLenAt_sat isPySpace s (q1 + 1) (x - (q1 + 1)) (by omega)
    rwa [show q1 + 1 + (x - (q1 + 1)) = x by omega] at hs
  · intro x hx1 hx2
    have hs := runLenAt_sat isPyDigit s vs (x - vs) (by omega)
    rwa [show vs + (x - vs) = x by omega] at hs

theorem sliceStr_sliceStr (s : Str) (b e d f : Nat) (hbe : b ≤ e)
    (hele : e ≤ s.length) (hdf : d ≤ f) (hf : f ≤ e - b) :
    sliceStr (sliceStr s b e) d f = sliceStr s (b + d) (b + f) := by
  apply List.ext_getElem?
  intro n
  show charAt? (sliceStr (sliceStr s b e) d f) n =
    charAt? (sliceStr s (b + d) (b + f)) n
  by_cases h1 : n < f - d
  · rw [charAt?_sliceStr _ _ _ _ h1]
    rw [charAt?_sliceStr s b e _ (by omega)]
    rw [charAt?_sliceStr s (b + d) (b + f) _ (by omega)]
    congr 1
    omega
  · rw [sliceStr_charAt?_eq_none _ d f n hdf
      (by rw [sliceStr_length s b e hbe hele]; omega) (by omega)]
    rw [sliceStr_charAt?_eq_none s (b + d) (b + f) n (by omega) (by omega)
      (by omega)]

/-- The word `DISPLAY_ORIENTATION` contains no digit. -/
theorem orient_word_not_digit :
    ∀ j, j < 19 → ((("DISPLAY_ORIENTATION".toList)[j]?).any isPyDigit = false) := by
  decide

/-- C3 (amended): `get_orientation` returns `0` when the file is missing
or no line matches the `DISPLAY_ORIENTATION` pattern; otherwise it returns
the full non-negative integer written after the colon of the first match
(the digit run that closes the match), clamped by nothing — the result
lies in 0–3 exactly when that stored integer does. -/
theorem c3_orientation_value (file : Option Str) :
    (search true orientItems (ScreenConfig.read file) = none →
      ScreenConfig.get_orientation file = 0) ∧
    (file = none → ScreenConfig.get_orientation file = 0) ∧
    (∀ b e caps,
      search true orientItems (ScreenConfig.read file) = some (b, e, caps) →
      ∃ vs, b < vs ∧ vs < e ∧
        (∀ x, vs ≤ x → x < e →
          (charAt? (ScreenConfig.read file) x).any isPyDigit = true) ∧
        (charAt? (ScreenConfig.read file) (vs - 1)).any isPyDigit = false ∧
        ScreenConfig.get_orientation file =
          natOfDigits (sliceStr (ScreenConfig.read file) vs e) ∧
        (natOfDigits (sliceStr (ScreenConfig.read file) vs e) ≤ 3 →
          ScreenConfig.get_orientation file ≤ 3)) := by
  refine ⟨?_, ?_, ?_⟩
  · intro h
    rw [ScreenConfig.get_orientation]
    simp only [h]
  · rintro rfl
    decide
  · intro b e caps hsearch
    set s := ScreenConfig.read file with hsdef
    rcases search_some_inv _ _ _ _ _ _ hsearch with ⟨hble, hm, _⟩
    have hele : e ≤ s.length := matchItems_le_length s true orientItems b _ e
      caps hble hm
    rcases orient_match_inv s b e caps hm with
      ⟨t, q1, vs, hbol, htdef, hword, hq1def, hcolon, hq1vs, htws, hcaps,
       hvse, hdig⟩
    have hbt : b ≤ t := by omega
    have htq : t + 19 ≤ q1 := by omega
    have hbvs : b < vs := by omega
    have hprev : (charAt? s (vs - 1)).any isPyDigit = false := by
      by_cases hj : q1 + 1 = vs
      · rw [show vs - 1 = q1 by omega, any_of_charAt s q1 ':' _ hcolon]
        decide
      · have hws := htws (vs - 1) (by omega) (by omega)
        cases hc : charAt? s (vs - 1) with
        | none => rfl
        | some c =>
          rw [hc] at hws
          have hcs : isPySpace c = true := by simpa using hws
          simpa using ws_not_digit c hcs
    have heq : ScreenConfig.get_orientation file =
        natOfDigits (sliceStr s vs e) := by
      set g0 := sliceStr s b e with hg0def
      have hg0len : g0.length = e - b := sliceStr_length s b e (by omega) hele
      have hg0at : ∀ j, j < e - b → charAt? g0 j = charAt? s (b + j) :=
        fun j hj => charAt?_sliceStr s b e j hj
      set d := vs - b with hddef
      -- the digit run of g0 starting at d has length e - vs and reaches
      -- the end of g0
      have hrun : runLenAt isPyDigit g0 d = e - vs := by
        refine runLenAt_eq_of _ _ _ _ ?_ ?_
        · intro j hj
          rw [hg0at (d + j) (by omega)]
          have := hdig (vs + j) (by omega) (by omega)
          rwa [show b + (d + j) = vs + j by omega]
        · rw [show d + (e - vs) = e - b by omega]
          rw [charAt?_eq_none g0 (e - b) (by omega)]
          rfl
      -- the match of the trailing-digits pattern at d in g0
      have hdm : matchItems g0 false digitsEndItems d (0, 0) =
          some (e - b, (d, e - b)) := by
        rw [show digitsEndItems = .grpOpen :: [.plus isPyDigit, .grpClose,
          .eol] from rfl]
        rw [matchItems_grpOpen_eq]
        refine matchItems_plus_max_intro _ _ _ _ _ _ _ (by rw [hrun]; omega)
          ?_
        rw [hrun, show d + (e - vs) = e - b by omega]
        rw [show ([.grpClose, .eol] : List Item) = .grpClose :: [.eol]
          from rfl]
        rw [matchItems_grpClose_eq]
        refine matchItems_eol_intro _ _ _ _ _ _ ?_ ?_
        · rw [isEol]
          simp [hg0len]
        · rw [matchItems_nil]
      -- no earlier start position matches: every character before d is
      -- not a digit
      have hnod : ∀ q, q < d → (charAt? g0 q).any isPyDigit = false := by
        intro q hq
        rw [hg0at q (by omega)]
        have hx : b + q < vs := by omega
        rcases Nat.lt_or_ge (b + q) t with hc1 | hc1
        · -- leading whitespace
          have := runLenAt_sat isPySpace s b (b + q - b) (by omega)
          rw [show b + (b + q - b) = b + q by omega] at this
          cases hcc : charAt? s (b + q) with
          | none => rfl
          | some c =>
            rw [hcc] at this
            have hcs : isPySpace c = true := by simpa using this
            simpa using ws_not_digit c hcs
        · rcases Nat.lt_or_ge (b + q) (t + 19) with hc2 | hc2
          · -- inside the key word
            have := hword (b + q - t) (by omega)
            rw [show t + (b + q - t) = b + q by omega] at this
            rw [this]
            exact orient_word_not_digit (b + q - t) (by omega)
          · rcases Nat.lt_or_ge (b + q) q1 with hc3 | hc3
            · -- whitespace between the word and the colon
              have := runLenAt_sat isPySpace s (t + 19) (b + q - (t + 19))
                (by omega)
              rw [show t + 19 + (b + q - (t + 19)) = b + q by omega] at this
              cases hcc : charAt? s (b + q) with
              | none => rfl
              | some c =>
                rw [hcc] at this
                have hcs : isPySpace c = true := by simpa using this
                simpa using ws_not_digit c hcs
            · rcases Nat.eq_or_lt_of_le hc3 with hc4 | hc4
              · -- the colon itself
                rw [← hc4, any_of_charAt s q1 ':' _ hcolon]
                decide
              · -- whitespace after the colon
                have := htws (b + q) (by omega) (by omega)
                cases hcc : charAt? s (b + q) with
                | none => rfl
                | some c =>
                  rw [hcc] at this
                  have hcs : isPySpace c = true := by simpa using this
                  simpa using ws_not_digit c hcs
      have hnone : ∀ q, q < d → matchItems g0 false digitsEndItems q (0, 0) =
          none := by
        intro q hq
        rw [show digitsEndItems = .grpOpen :: .plus isPyDigit :: [.grpClose,
          .eol] from rfl]
        rw [matchItems_grpOpen_eq, matchItems]
        rw [cands, show runLenAt isPyDigit g0 q = 0 from ?_]
        · rw [descPos, firstSome]
        · refine runLenAt_eq_of _ _ _ _ (by omega) ?_
          rw [Nat.add_zero]
          exact hnod q hq
      have hsearch2 : search false digitsEndItems g0 =
          some (d, e - b, (d, e - b)) :=
        search_intro g0 false digitsEndItems d (e - b) (d, e - b)
          (by omega) hdm hnone
      rw [ScreenConfig.get_orientation]
      simp only [← hsdef, hsearch, hsearch2, ← hg0def]
      congr 1
      rw [sliceStr_sliceStr s b e d (e - b) (by omega) hele (by omega)
        (by omega)]
      congr 1 <;> omega
    exact ⟨vs, hbvs, hvse, hdig, hprev, heq, fun h => heq ▸ h⟩

theorem c3_orientation_value_witness :
    ScreenConfig.get_orientation (some "no key\n".toList) = 0 ∧
    ScreenConfig.get_orientation none = 0 ∧
    ∃ vs, 0 < vs ∧ vs < 22 ∧
      (∀ x, vs ≤ x → x < 22 →
        (charAt? (ScreenConfig.read
          (some "DISPLAY_ORIENTATION: 2\n".toList)) x).any isPyDigit = true) ∧
      (charAt? (ScreenConfig.read (some "DISPLAY_ORIENTATION: 2\n".toList))
        (vs - 1)).any isPyDigit = false ∧
      ScreenConfig.get_orientation (some "DISPLAY_ORIENTATION: 2\n".toList) =
        natOfDigits (sliceStr (ScreenConfig.read
          (some "DISPLAY_ORIENTATION: 2\n".toList)) vs 22) ∧
      (natOfDigits (sliceStr (ScreenConfig.read
          (some "DISPLAY_ORIENTATION: 2\n".toList)) vs 22) ≤ 3 →
        ScreenConfig.get_orientation
          (some "DISPLAY_ORIENTATION: 2\n".toList) ≤ 3) := by
  refine ⟨(c3_orientation_value (some "no key\n".toList)).1 (by decide),
    (c3_orientation_value none).2.1 rfl,
    (c3_orientation_value (some "DISPLAY_ORIENTATION: 2\n".toList)).2.2
      0 22 (0, 21) (by decide)⟩

/-!
## Claim C4: frame property of the setters
-/

theorem subnSpans_mem_match (s : Str) (ml : Bool) (items : List Item)
    (repl : Caps → Str) :
    ∀ spans i out, SubnSpans s ml items repl i spans out →
      ∀ b e caps, (b, e, caps) ∈ spans →
        matchItems s ml items b (0, 0) = some (e, caps) := by
  intro spans
  induction spans with
  | nil => intro i out _ b e caps hm; simp at hm
  | cons sp rest ih =>
    intro i out hsp b e caps hm
    rcases sp with ⟨b', e', caps'⟩
    rcases hsp with ⟨_, _, _, hmatch, out', _, hrest⟩
    rcases List.mem_cons.mp hm with heq | hm'
    · injection heq with h1 h2
      injection h2 with h3 h4
      subst h1; subst h3; subst h4
      exact hmatch
    · exact ih _ _ hrest b e caps hm'

/-- Every `set_theme`-pattern match moves strictly forward. -/
theorem themeSub_ne (s : Str) :
    ∀ q e caps, matchItems s true themeSubItems q (0, 0) = some (e, caps) →
      q < e := by
  intro q e caps h
  rcases themeSub_match_inv s q e caps h with
    ⟨t, q1, ge, _, ht, _, _, _, _, _, hq1, _, hge, _, _, hgee, _, _⟩
  omega

/-- Every orientation-pattern match moves strictly forward. -/
theorem orient_ne (s : Str) :
    ∀ q e caps, matchItems s true orientItems q (0, 0) = some (e, caps) →
      q < e := by
  intro q e caps h
  rcases orient_match_inv s q e caps h with
    ⟨t, q1, vs, _, ht, _, hq1, _, hvs, _, _, hvse, _⟩
  omega

/-- C4 (amended): each setter either leaves the file object untouched
(returning `False` — in particular whenever the pattern does not occur),
or rewrites it into an alternating sequence of verbatim-copied gaps and
replaced match spans: inside each span the key-and-colon prefix (capture
group 1) is preserved and only the remainder of the span is replaced by
the new value; every byte outside the matched spans is unchanged.  A
span, however, is a full pattern match, which can absorb surrounding
whitespace and line breaks beyond the matching line (see the
counterexample), so "only the matching line changes" is false, while
"only the matched spans change" holds. -/
theorem c4_frame (file : Option Str) (name : Str) (v : Int) :
    ((ScreenConfig.set_theme file name).1 = false →
      ScreenConfig.set_theme file name = (false, file)) ∧
    (search true themeSubItems (ScreenConfig.read file) = none →
      ScreenConfig.set_theme file name = (false, file)) ∧
    (∀ new, ScreenConfig.set_theme file name = (true, some new) →
      ∃ spans, spans ≠ [] ∧
        SubnSpans (ScreenConfig.read file) true themeSubItems
          (fun caps =>
            sliceStr (ScreenConfig.read file) caps.1 caps.2 ++ name)
          0 spans new ∧
        ∀ b e caps, (b, e, caps) ∈ spans →
          caps.1 = b ∧ b < caps.2 ∧ caps.2 ≤ e) ∧
    ((ScreenConfig.set_orientation file v).1 = false →
      ScreenConfig.set_orientation file v = (false, file)) ∧
    (search true orientItems (ScreenConfig.read file) = none →
      ScreenConfig.set_orientation file v = (false, file)) ∧
    (∀ new, ScreenConfig.set_orientation file v = (true, some new) →
      ∃ spans, spans ≠ [] ∧
        SubnSpans (ScreenConfig.read file) true orientItems
          (fun caps =>
            sliceStr (ScreenConfig.read file) caps.1 caps.2 ++
              (toString v).toList)
          0 spans new ∧
        ∀ b e caps, (b, e, caps) ∈ spans →
          caps.1 = b ∧ b < caps.2 ∧ caps.2 ≤ e) := by
  set s := ScreenConfig.read file with hsdef
  refine ⟨?_, ?_, ?_, ?_, ?_, ?_⟩
  · intro h
    simp only [ScreenConfig.set_theme, ← hsdef] at h ⊢
    by_cases hc : (subn true themeSubItems
        (fun caps => sliceStr s caps.1 caps.2 ++ name) s).2 ≠ 0
    · rw [if_pos hc] at h
      exact absurd h (by simp)
    · rw [if_neg hc]
  · intro h
    have hz := subn_of_search_none true themeSubItems
      (fun caps => sliceStr s caps.1 caps.2 ++ name) s h
    simp only [ScreenConfig.set_theme, ← hsdef]
    rw [if_neg (by rw [hz]; simp)]
  · intro new h
    simp only [ScreenConfig.set_theme, ← hsdef] at h
    by_cases hc : (subn true themeSubItems
        (fun caps => sliceStr s caps.1 caps.2 ++ name) s).2 ≠ 0
    · rw [if_pos hc] at h
      injection h with h1 h2
      injection h2 with h3
      rcases subn_spans s true themeSubItems
        (fun caps => sliceStr s caps.1 caps.2 ++ name) (themeSub_ne s)
        with ⟨spans, hlen, hsp⟩
      refine ⟨spans, ?_, by rwa [h3] at hsp, ?_⟩
      · intro hnil
        rw [hnil] at hlen
        exact hc hlen.symm
      · intro b e caps hmem
        have hmatch := subnSpans_mem_match s true themeSubItems _ spans 0 _
          hsp b e caps hmem
        rcases themeSub_match_inv s b e caps hmatch with
          ⟨t, q1, ge, _, ht, _, _, _, _, _, hq1, _, hge, _, hcaps, hgee, _, _⟩
        rw [hcaps]
        exact ⟨rfl, by omega, by omega⟩
    · rw [if_neg hc] at h
      exact absurd h (by simp)
  · intro h
    simp only [ScreenConfig.set_orientation, ← hsdef] at h ⊢
    by_cases hv : v = 0 ∨ v = 1 ∨ v = 2 ∨ v = 3
    · rw [if_pos hv] at h ⊢
      by_cases hc : (subn true orientItems
          (fun caps => sliceStr s caps.1 caps.2 ++ (toString v).toList) s).2 ≠ 0
      · rw [if_pos hc] at h
        exact absurd h (by simp)
      · rw [if_neg hc]
    · rw [if_neg hv]
  · intro h
    have hz := subn_of_search_none true orientItems
      (fun caps => sliceStr s caps.1 caps.2 ++ (toString v).toList) s h
    simp only [ScreenConfig.set_orientation, ← hsdef]
    by_cases hv : v = 0 ∨ v = 1 ∨ v = 2 ∨ v = 3
    · rw [if_pos hv]
      rw [if_neg (by rw [hz]; simp)]
    · rw [if_neg hv]
  · intro new h
    simp only [ScreenConfig.set_orientation, ← hsdef] at h
    by_cases hv : v = 0 ∨ v = 1 ∨ v = 2 ∨ v = 3
    · rw [if_pos hv] at h
      by_cases hc : (subn true orientItems
          (fun caps => sliceStr s caps.1 caps.2 ++ (toString v).toList) s).2 ≠ 0
      · rw [if_pos hc] at h
        injection h with h1 h2
        injection h2 with h3
        rcases subn_spans s true orientItems
          (fun caps => sliceStr s caps.1 caps.2 ++ (toString v).toList)
          (orient_ne s) with ⟨spans, hlen, hsp⟩
        refine ⟨spans, ?_, by rwa [h3] at hsp, ?_⟩
        · intro hnil
          rw [hnil] at hlen
          exact hc hlen.symm
        · intro b e caps hmem
          have hmatch := subnSpans_mem_match s true orientItems _ spans 0 _
            hsp b e caps hmem
          rcases orient_match_inv s b e caps hmatch with
            ⟨t, q1, vs, _, ht, _, hq1, _, hvs, _, hcaps, hvse, _⟩
          rw [hcaps]
          exact ⟨rfl, by omega, by omega⟩
      · rw [if_neg hc] at h
        exact absurd h (by simp)
    · rw [if_neg hv] at h
      exact absurd h (by simp)

theorem c4_frame_witness :
    ScreenConfig.set_theme (some "B: c\n".toList) "x".toList =
      (false, some "B: c\n".toList) ∧
    ∃ spans, spans ≠ [] ∧
      SubnSpans (ScreenConfig.read (some "THEME: a\n\nB: c\n".toList)) true
        themeSubItems
        (fun caps =>
          sliceStr (ScreenConfig.read (some "THEME: a\n\nB: c\n".toList))
            caps.1 caps.2 ++ "x".toList)
        0 spans "THEME: x\nB: c\n".toList ∧
      ∀ b e caps, (b, e, caps) ∈ spans →
        caps.1 = b ∧ b < caps.2 ∧ caps.2 ≤ e := by
  refine ⟨(c4_frame (some "B: c\n".toList) "x".toList 0).2.1 (by decide), ?_⟩
  exact (c4_frame (some "THEME: a\n\nB: c\n".toList) "x".toList 0).2.2.1
    "THEME: x\nB: c\n".toList (by decide)

/-!
## Claim C8: theme discovery
-/

/-- `get_display_size` never returns the empty string: its values come
from `REVISION_TO_SIZE`. -/
theorem ScreenConfig.get_display_size_ne_empty (config : Option Str)
    (sz : String) (h : ScreenConfig.get_display_size config = some sz) :
    sz ≠ "" := by
  rw [ScreenConfig.get_display_size] at h
  cases hrev : ScreenConfig.get_display_revision config with
  | none =>
    rw [hrev] at h
    simp at h
  | some rev =>
    rw [hrev] at h
    replace h : (if rev ≠ [] then
        match ScreenConfig.assocLookup ScreenConfig.REVISION_TO_SIZE
          (String.mk (ScreenConfig.pyUpper rev)) with
        | some o => o
        | none => none
      else none) = some sz := h
    by_cases hne : rev ≠ []
    · rw [if_pos hne] at h
      cases hlook : ScreenConfig.assocLookup ScreenConfig.REVISION_TO_SIZE
          (String.mk (ScreenConfig.pyUpper rev)) with
      | none =>
        rw [hlook] at h
        simp at h
      | some o =>
        rw [hlook] at h
        replace h : o = some sz := h
        rw [ScreenConfig.assocLookup] at hlook
        cases hfind : List.find?
            (fun p => p.1 == String.mk (ScreenConfig.pyUpper rev))
            ScreenConfig.REVISION_TO_SIZE with
        | none =>
          rw [hfind] at hlook
          simp at hlook
        | some p =>
          rw [hfind] at hlook
          replace hlook : some p.2 = some o := hlook
          injection hlook with hlook'
          have hmem := List.mem_of_find?_eq_some hfind
          rw [ScreenConfig.REVISION_TO_SIZE] at hmem
          rcases p with ⟨k, ov⟩
          simp only [List.mem_cons, List.not_mem_nil, or_false,
            Prod.mk.injEq] at hmem
          subst h
          rcases hmem with ⟨_, rfl⟩ | ⟨_, rfl⟩ | ⟨_, rfl⟩ | ⟨_, rfl⟩ |
            ⟨_, rfl⟩ | ⟨_, rfl⟩ | ⟨_, rfl⟩ <;>
            simp only at hlook' <;>
            first
            | (injection hlook' with h2; subst h2; decide)
            | exact absurd hlook' (by simp)
    · rw [if_neg hne] at h
      simp at h

/-- C8: the theme list is sorted; every listed name is a directory with a
`theme.yaml` whose name avoids the `--`/`_` markers; with filtering active
and a known display size, a theme whose detected size differs is excluded
while one whose size is undetectable is still included; and a missing
themes directory yields the empty list. -/
theorem c8_available_themes (themes_dir : Option (List ScreenConfig.ThemeEntry))
    (config : Option Str) (filter_by_display : Bool) :
    (themes_dir = none →
      ScreenConfig.get_available_themes themes_dir config filter_by_display = []) ∧
    List.Sorted (· ≤ ·)
      (ScreenConfig.get_available_themes themes_dir config filter_by_display) ∧
    (∀ entries, themes_dir = some entries →
      ∀ n, n ∈ ScreenConfig.get_available_themes themes_dir config
          filter_by_display →
        ∃ d ∈ entries, d.name = n ∧ d.isDir = true ∧ d.themeYaml ≠ none ∧
          ScreenConfig.pyStartsWith n.toList "--".toList = false ∧
          ScreenConfig.pyStartsWith n.toList "_".toList = false) ∧
    (∀ entries, themes_dir = some entries → filter_by_display = true →
      ∀ sz, ScreenConfig.get_display_size config = some sz →
        (∀ d, d ∈ entries → (entries.map (·.name)).Nodup →
          ∀ ts, ScreenConfig.get_theme_size d = some ts → ts ≠ "" → ts ≠ sz →
            d.name ∉ ScreenConfig.get_available_themes themes_dir config
              filter_by_display) ∧
        (∀ d, d ∈ entries → d.isDir = true → d.themeYaml.isSome = true →
          ScreenConfig.pyStartsWith d.name.toList "--".toList = false →
          ScreenConfig.pyStartsWith d.name.toList "_".toList = false →
          ScreenConfig.get_theme_size d = none →
          d.name ∈ ScreenConfig.get_available_themes themes_dir config
            filter_by_display)) := by
  refine ⟨?_, ?_, ?_, ?_⟩
  · rintro rfl
    rfl
  · cases themes_dir with
    | none => simp [ScreenConfig.get_available_themes]
    | some entries =>
      rw [ScreenConfig.get_available_themes]
      exact List.sorted_insertionSort (· ≤ ·) _
  · rintro entries rfl n hn
    rw [ScreenConfig.get_available_themes] at hn
    have hn' := (List.perm_insertionSort (· ≤ ·) _).mem_iff.mp hn
    rcases List.mem_map.mp hn' with ⟨d, hd, rfl⟩
    rcases List.mem_filter.mp hd with ⟨hde, hkeep⟩
    rw [ScreenConfig.keepTheme] at hkeep
    simp only [Bool.and_eq_true] at hkeep
    refine ⟨d, hde, rfl, hkeep.1.1.1, ?_, ?_, ?_⟩
    · intro hy
      rw [hy] at hkeep
      simp at hkeep
    · have := hkeep.1.2
      rw [Bool.not_eq_true', Bool.or_eq_false_iff] at this
      exact this.1
    · have := hkeep.1.2
      rw [Bool.not_eq_true', Bool.or_eq_false_iff] at this
      exact this.2
  · rintro entries rfl hfil sz hsz
    subst hfil
    have hszne : sz ≠ "" := ScreenConfig.get_display_size_ne_empty config sz hsz
    have htruthy : ScreenConfig.pyTruthy (some sz) = true := by
      rw [ScreenConfig.pyTruthy]
      simpa using hszne
    constructor
    · intro d hd hnd ts hts htsne htssz hmem
      replace hmem : d.name ∈ List.insertionSort (· ≤ ·)
          ((entries.filter
            (ScreenConfig.keepTheme (ScreenConfig.get_display_size config))).map
            (·.name)) := hmem
      have hmem' := (List.perm_insertionSort (· ≤ ·) _).mem_iff.mp hmem
      rcases List.mem_map.mp hmem' with ⟨d', hd', hname⟩
      rcases List.mem_filter.mp hd' with ⟨hd'e, hkeep⟩
      have : d' = d := List.inj_on_of_nodup_map hnd hd'e hd hname
      subst this
      rw [ScreenConfig.keepTheme, hsz] at hkeep
      simp only [Bool.and_eq_true] at hkeep
      have := hkeep.2
      rw [if_pos htruthy] at this
      rw [hts] at this
      have httr : ScreenConfig.pyTruthy (some ts) = true := by
        rw [ScreenConfig.pyTruthy]
        simpa using htsne
      rw [httr] at this
      simp only [Bool.not_eq_true', Bool.and_eq_false_iff] at this
      rcases this with h | h
      · exact absurd h (by simp)
      · rw [bne_eq_false_iff_eq] at h
        injection h with h'
        exact htssz h'
    · intro d hd hdir hyaml hp1 hp2 hnone
      show d.name ∈ List.insertionSort (· ≤ ·)
        ((entries.filter
          (ScreenConfig.keepTheme (ScreenConfig.get_display_size config))).map
          (·.name))
      refine (List.perm_insertionSort (· ≤ ·) _).mem_iff.mpr ?_
      refine List.mem_map.mpr ⟨d, List.mem_filter.mpr ⟨hd, ?_⟩, rfl⟩
      rw [ScreenConfig.keepTheme, hsz]
      simp only [Bool.and_eq_true]
      refine ⟨⟨⟨hdir, hyaml⟩, by rw [hp1, hp2]; rfl⟩, ?_⟩
      rw [if_pos htruthy, hnone]
      rfl

/-- Witness entries: a 3.5-inch theme and one with an unreadable
`theme.yaml`, against a 5-inch display (`REVISION: C`). -/
def entAlpha : ScreenConfig.ThemeEntry :=
  ⟨"Alpha", true, some (some "DISPLAY_SIZE: 3.5\n".toList)⟩

def entBeta : ScreenConfig.ThemeEntry := ⟨"Beta", true, some none⟩

theorem c8_available_themes_witness :
    (∃ d ∈ [entAlpha, entBeta], d.name = "Beta" ∧ d.isDir = true ∧
      d.themeYaml ≠ none ∧
      ScreenConfig.pyStartsWith "Beta".toList "--".toList = false ∧
      ScreenConfig.pyStartsWith "Beta".toList "_".toList = false) ∧
    "Alpha" ∉ ScreenConfig.get_available_themes (some [entAlpha, entBeta])
      (some "REVISION: C\n".toList) true ∧
    "Beta" ∈ ScreenConfig.get_available_themes (some [entAlpha, entBeta])
      (some "REVISION: C\n".toList) true := by
  have h := c8_available_themes (some [entAlpha, entBeta])
    (some "REVISION: C\n".toList) true
  refine ⟨?_, ?_, ?_⟩
  · exact h.2.2.1 [entAlpha, entBeta] rfl "Beta" (by decide)
  · exact (h.2.2.2 [entAlpha, entBeta] rfl rfl "5" (by decide)).1 entAlpha
      (List.mem_cons_self _ _) (by decide) "3.5" (by decide) (by decide)
      (by decide)
  · exact (h.2.2.2 [entAlpha, entBeta] rfl rfl "5" (by decide)).2 entBeta
      (by simp) (by decide) (by decide) (by decide) (by decide) (by decide)

/-!
## Claim C1: infrastructure for the write/read round trip
-/

theorem matchItems_star_exists_intro (s : Str) (ml : Bool) (p : Char → Bool)
    (r : List Item) (i : Nat) (caps : Caps) (j : Nat)
    (hj : j ≤ runLenAt p s i) (h : matchItems s ml r (i + j) caps ≠ none) :
    matchItems s ml (.star p :: r) i caps ≠ none := by
  rw [matchItems]
  intro hc
  rw [firstSome_eq_none] at hc
  exact h (hc j (by rw [cands]; exact (mem_descList j _).mpr hj))

/-- A string with no leading and no trailing whitespace is unchanged by
`strip`. -/
theorem pyStrip_eq_self (l : Str)
    (hh : (charAt? l 0).any isPySpace = false)
    (hl : (charAt? l (l.length - 1)).any isPySpace = false) :
    pyStrip l = l := by
  cases l with
  | nil => rfl
  | cons c rest =>
    have hc : isPySpace c = false := by simpa [charAt?] using hh
    rw [pyStrip]
    rw [List.dropWhile_cons, hc]
    simp only [Bool.false_eq_true, if_false]
    have hrev : (c :: rest).reverse ≠ [] := by simp
    rcases List.exists_cons_of_ne_nil hrev with ⟨d, ds, hds⟩
    have hld : (c :: rest) = ds.reverse ++ [d] := by
      have h0 := congrArg List.reverse hds
      rwa [List.reverse_reverse, List.reverse_cons] at h0
    have hd : isPySpace d = false := by
      have hlen : (c :: rest).length - 1 = ds.reverse.length := by
        rw [hld]
        simp
      rw [hlen, hld] at hl
      rw [charAt?_append_right _ _ _ (le_refl _), Nat.sub_self] at hl
      simpa [charAt?] using hl
    rw [hds, List.dropWhile_cons, hd]
    simp only [Bool.false_eq_true, if_false]
    rw [← hds, List.reverse_reverse]

/-- First rewriting step of `subn` when the search succeeds with a
nonempty match. -/
theorem subn_first_step (s : Str) (ml : Bool) (items : List Item)
    (repl : Caps → Str) (b e : Nat) (caps : Caps)
    (hne : ∀ q e' caps', matchItems s ml items q (0, 0) = some (e', caps') →
      q < e')
    (h : search ml items s = some (b, e, caps)) :
    ∃ tail, (subn ml items repl s).1 = sliceStr s 0 b ++ repl caps ++ tail ∧
      ∃ spans, SubnSpans s ml items repl e spans tail := by
  rcases search_some_inv s ml items b e caps h with ⟨hble, hm, _⟩
  have hbe : b < e := hne b e caps hm
  have hele : e ≤ s.length := matchItems_le_length s ml items b _ e caps hble hm
  have hnotle : ¬ e ≤ b := by omega
  unfold search at h
  rcases hrec : subnGo s ml items repl s.length e with ⟨tail, n⟩
  have hstep : subn ml items repl s =
      (sliceStr s 0 b ++ repl caps ++ tail, n + 1) := by
    unfold subn
    simp [subnGo, h, hnotle, hrec]
  have hfe : s.length + 1 - e ≤ s.length := by omega
  rcases subnGo_spans s ml items repl hne s.length e hfe hele with
    ⟨spans, _, hsp⟩
  rw [hrec] at hsp
  exact ⟨tail, by rw [hstep], spans, hsp⟩

/-- When the remaining start position is at or past the end, the rest of
the spans is empty and the output is the (empty) remaining text. -/
theorem subnSpans_at_end (s : Str) (ml : Bool) (items : List Item)
    (repl : Caps → Str) (e : Nat) (spans : List (Nat × Nat × Caps))
    (out : Str) (hsp : SubnSpans s ml items repl e spans out)
    (he : s.length ≤ e) : out = s.drop e := by
  cases spans with
  | nil => exact hsp
  | cons sp rest =>
    rcases sp with ⟨b2, e2, caps2⟩
    rcases hsp with ⟨h1, h2, h3, _⟩
    omega

/-- The first character of the text produced after position `e` is the
character of `s` at `e`, provided every match's capture starts at the
match and is nonempty, and the replacement keeps the captured prefix. -/
theorem subnSpans_head (s : Str) (ml : Bool) (items : List Item)
    (repl : Caps → Str) (e : Nat) (spans : List (Nat × Nat × Caps))
    (out : Str) (hsp : SubnSpans s ml items repl e spans out)
    (he : e < s.length)
    (hcaps : ∀ b' e' caps', matchItems s ml items b' (0, 0) =
      some (e', caps') → caps'.1 = b' ∧ b' < caps'.2 ∧ caps'.2 ≤ e')
    (hrepl : ∀ caps', ∃ suf, repl caps' = sliceStr s caps'.1 caps'.2 ++ suf) :
    charAt? out 0 = charAt? s e := by
  cases spans with
  | nil =>
    rw [hsp, charAt?_drop, Nat.add_zero]
  | cons sp rest =>
    rcases sp with ⟨b2, e2, caps2⟩
    rcases hsp with ⟨h1, h2, h3, hmatch, out', hout, _⟩
    rcases hcaps b2 e2 caps2 hmatch with ⟨hc1, hc2, hc3⟩
    rcases hrepl caps2 with ⟨suf, hsuf⟩
    rw [hout]
    rcases Nat.eq_or_lt_of_le h1 with heq | hlt
    · have hnil : sliceStr s e b2 = [] :=
        List.eq_nil_of_length_eq_zero (by
          rw [sliceStr_length s e b2 (by omega) (by omega)]
          omega)
      rw [hnil, List.nil_append, hsuf, List.append_assoc]
      rw [charAt?_append_left _ _ _ (by
        rw [sliceStr_length s caps2.1 caps2.2 (by omega) (by omega)]
        omega)]
      rw [charAt?_sliceStr s caps2.1 caps2.2 0 (by omega), Nat.add_zero, hc1,
        ← heq]
    · rw [List.append_assoc]
      rw [charAt?_append_left _ _ _ (by
        rw [sliceStr_length s e b2 (by omega) (by omega)]
        omega)]
      rw [charAt?_sliceStr s e b2 0 (by omega), Nat.add_zero]

theorem isThemeValChar_not_quote (c : Char) (h : isThemeValChar c = true) :
    isQuote c = false := by
  rw [isThemeValChar] at h
  rw [Bool.not_eq_eq_eq_not, Bool.not_true, Bool.or_eq_false_iff,
    Bool.or_eq_false_iff] at h
  rw [isQuote, h.1.1, h.1.2]
  rfl

theorem themeGetItems_eq :
    themeGetItems = .bol :: .star isPySpace :: .lit 'T' :: .lit 'H' ::
      .lit 'E' :: .lit 'M' :: .lit 'E' :: .star isPySpace :: .lit ':' ::
      .star isPySpace :: .opt isQuote :: .grpOpen :: .plus isThemeValChar ::
      .grpClose :: .opt isQuote :: .star isPySpace :: .eol :: [] := rfl

/-- Construction of a `get_current_theme`-pattern match from the layout
of a rewritten theme line: the capture is exactly `[ge, z)`. -/
theorem themeGet_match_at (nw : Str) (b t q1 ge z : Nat)
    (hbol : isBol nw b = true)
    (hbt : b ≤ t) (hlws : runLenAt isPySpace nw b = t - b)
    (hT : charAt? nw t = some 'T') (hH : charAt? nw (t + 1) = some 'H')
    (hE1 : charAt? nw (t + 2) = some 'E') (hM : charAt? nw (t + 3) = some 'M')
    (hE2 : charAt? nw (t + 4) = some 'E')
    (htq : t + 5 ≤ q1) (hmws : runLenAt isPySpace nw (t + 5) = q1 - (t + 5))
    (hColon : charAt? nw q1 = some ':')
    (hq1ge : q1 + 1 ≤ ge)
    (htws : runLenAt isPySpace nw (q1 + 1) = ge - (q1 + 1))
    (hgez : ge < z) (hvalrun : runLenAt isThemeValChar nw ge = z - ge)
    (hq0 : (charAt? nw ge).any isQuote = false)
    (heolz : isEol true nw z = true) :
    ∃ m, matchItems nw true themeGetItems b (0, 0) = some (m, (ge, z)) := by
  have hzq : (charAt? nw z).any isQuote = false := by
    rw [isEol] at heolz
    rcases Bool.or_eq_true _ _ |>.mp heolz with hz | hz
    · rw [charAt?_eq_none nw z (by
        have := beq_iff_eq.mp hz
        omega)]
      rfl
    · rw [beq_iff_eq.mp hz]
      rfl
  have h1 : matchItems nw true [.eol] z (ge, z) = some (z, (ge, z)) :=
    matchItems_eol_intro _ _ _ _ _ _ heolz (matchItems_nil _ _ _ _)
  have h2 : matchItems nw true [.star isPySpace, .eol] z (ge, z) ≠ none := by
    refine matchItems_star_exists_intro nw true isPySpace [.eol] z (ge, z) 0
      (Nat.zero_le _) ?_
    rw [Nat.add_zero, h1]
    simp
  rcases Option.ne_none_iff_exists'.mp h2 with ⟨⟨m, capsE⟩, hm⟩
  have hcapsE : capsE = (ge, z) :=
    matchItems_caps_pass nw true [.star isPySpace, .eol] rfl z (ge, z) m
      capsE hm
  subst hcapsE
  refine ⟨m, ?_⟩
  rw [themeGetItems_eq]
  refine matchItems_bol_intro _ _ _ _ _ _ hbol ?_
  refine matchItems_star_max_intro _ _ _ _ _ _ _ ?_
  rw [hlws, show b + (t - b) = t by omega]
  refine matchItems_lit_intro _ _ _ _ _ _ _ hT ?_
  refine matchItems_lit_intro _ _ _ _ _ _ _ hH ?_
  rw [show t + 1 + 1 = t + 2 by omega]
  refine matchItems_lit_intro _ _ _ _ _ _ _ hE1 ?_
  rw [show t + 2 + 1 = t + 3 by omega]
  refine matchItems_lit_intro _ _ _ _ _ _ _ hM ?_
  rw [show t + 3 + 1 = t + 4 by omega]
  refine matchItems_lit_intro _ _ _ _ _ _ _ hE2 ?_
  rw [show t + 4 + 1 = t + 5 by omega]
  refine matchItems_star_max_intro _ _ _ _ _ _ _ ?_
  rw [hmws, show t + 5 + (q1 - (t + 5)) = q1 by omega]
  refine matchItems_lit_intro _ _ _ _ _ _ _ hColon ?_
  refine matchItems_star_max_intro _ _ _ _ _ _ _ ?_
  rw [htws, show q1 + 1 + (ge - (q1 + 1)) = ge by omega]
  refine matchItems_opt_skip_intro _ _ _ _ _ _ _ hq0 ?_
  rw [matchItems_grpOpen_eq]
  refine matchItems_plus_max_intro _ _ _ _ _ _ _ (by omega) ?_
  rw [hvalrun, show ge + (z - ge) = z by omega]
  rw [matchItems_grpClose_eq]
  refine matchItems_opt_skip_intro _ _ _ _ _ _ _ hzq ?_
  exact hm

/-- The word `THEME` occurs at position `t` of `s`. -/
def themeWordAt (s : Str) (t : Nat) : Prop :=
  charAt? s t = some 'T' ∧ charAt? s (t + 1) = some 'H' ∧
  charAt? s (t + 2) = some 'E' ∧ charAt? s (t + 3) = some 'M' ∧
  charAt? s (t + 4) = some 'E'

instance themeWordAt_decidable (s : Str) (t : Nat) :
    Decidable (themeWordAt s t) := by
  unfold themeWordAt
  infer_instance

/-- No position before `b1` begins a `get_current_theme`-pattern match of
the rewritten string `nw`, given that `b1` was the first match of the
substitution pattern in `s`, that `nw` agrees with `s` before `ge` (the
end of the first match's capture), and that no `THEME` word occurs wholly
before `b1` in `s`. -/
theorem themeGet_no_early_match (s nw : Str) (b1 e1 : Nat) (caps1 : Caps)
    (t q1 ge : Nat)
    (hminold : ∀ q', q' < b1 →
      matchItems s true themeSubItems q' (0, 0) = none)
    (ht : t = b1 + runLenAt isPySpace s b1)
    (hT : charAt? s t = some 'T') (hH : charAt? s (t + 1) = some 'H')
    (hE1 : charAt? s (t + 2) = some 'E') (hM : charAt? s (t + 3) = some 'M')
    (hE2 : charAt? s (t + 4) = some 'E')
    (hq1 : q1 = t + 5 + runLenAt isPySpace s (t + 5))
    (hColon : charAt? s q1 = some ':')
    (hq1ge : q1 + 1 ≤ ge)
    (htws : ∀ x, q1 + 1 ≤ x → x < ge → (charAt? s x).any isPySpace = true)
    (hD : matchItems s true themeAfterLws t (b1, 0) = some (e1, caps1))
    (hagree : ∀ x, x < ge → charAt? nw x = charAt? s x)
    (hnothem : ∀ t', t' + 5 ≤ b1 → ¬ themeWordAt s t')
    (q : Nat) (hq : q < b1) :
    matchItems nw true themeGetItems q (0, 0) = none := by
  have hb1t : b1 ≤ t := by omega
  have htq1 : t + 5 ≤ q1 := by omega
  have htge : t < ge := by omega
  by_contra hcon
  rcases Option.ne_none_iff_exists'.mp hcon with ⟨⟨m', caps'⟩, hsome⟩
  rw [themeGetItems_eq] at hsome
  rcases matchItems_bol_inv _ _ _ _ _ _ hsome with ⟨hbolq, h1⟩
  rcases matchItems_star_lit_inv nw true isPySpace 'T' _ q _ _ (by decide) h1
    with ⟨hT', h2⟩
  set t' := q + runLenAt isPySpace nw q with ht'def
  have hwsq : ∀ x, q ≤ x → x < t' → (charAt? nw x).any isPySpace = true := by
    intro x hx1 hx2
    have := runLenAt_sat isPySpace nw q (x - q) (by omega)
    rwa [show q + (x - q) = x by omega] at this
  rcases matchItems_lit_inv _ _ _ _ _ _ _ h2 with ⟨_, h3⟩
  rcases matchItems_lit_inv _ _ _ _ _ _ _ h3 with ⟨hH', h4⟩
  rw [show t' + 1 + 1 = t' + 2 by omega] at h4
  rcases matchItems_lit_inv _ _ _ _ _ _ _ h4 with ⟨hE1', h5⟩
  rw [show t' + 2 + 1 = t' + 3 by omega] at h5
  rcases matchItems_lit_inv _ _ _ _ _ _ _ h5 with ⟨hM', h6⟩
  rw [show t' + 3 + 1 = t' + 4 by omega] at h6
  rcases matchItems_lit_inv _ _ _ _ _ _ _ h6 with ⟨hE2', _⟩
  have hlwsold : ∀ x, b1 ≤ x → x < t → (charAt? s x).any isPySpace = true := by
    intro x hx1 hx2
    have := runLenAt_sat isPySpace s b1 (x - b1) (by omega)
    rwa [show b1 + (x - b1) = x by omega] at this
  have hmwsold : ∀ x, t + 5 ≤ x → x < q1 →
      (charAt? s x).any isPySpace = true := by
    intro x hx1 hx2
    have := runLenAt_sat isPySpace s (t + 5) (x - (t + 5)) (by omega)
    rwa [show t + 5 + (x - (t + 5)) = x by omega] at this
  rcases Nat.lt_or_ge t' ge with ht'ge | ht'ge
  · -- the THEME literal of the would-be match starts before ge
    rcases Nat.lt_or_ge ge (t' + 5) with hstrad | hfit
    · -- it would straddle ge; but the character at ge - 1 is the colon
      -- or whitespace, never a letter of THEME
      have holdfact : (charAt? s (ge - 1)).any isPySpace = true ∨
          charAt? s (ge - 1) = some ':' := by
        by_cases hje : q1 + 1 = ge
        · right
          rw [show ge - 1 = q1 by omega]
          exact hColon
        · left
          exact htws (ge - 1) (by omega) (by omega)
      have hgem : ge - 1 < ge := by omega
      rcases (by omega : ge - 1 = t' ∨ ge - 1 = t' + 1 ∨ ge - 1 = t' + 2 ∨
          ge - 1 = t' + 3 ∨ ge - 1 = t' + 4) with he | he | he | he | he <;>
        [(have hcc : charAt? s (ge - 1) = some 'T' := by
            rw [← hagree _ hgem, he]; exact hT');
         (have hcc : charAt? s (ge - 1) = some 'H' := by
            rw [← hagree _ hgem, he]; exact hH');
         (have hcc : charAt? s (ge - 1) = some 'E' := by
            rw [← hagree _ hgem, he]; exact hE1');
         (have hcc : charAt? s (ge - 1) = some 'M' := by
            rw [← hagree _ hgem, he]; exact hM');
         (have hcc : charAt? s (ge - 1) = some 'E' := by
            rw [← hagree _ hgem, he]; exact hE2')] <;>
        · rcases holdfact with hws | hcol
          · rw [hcc] at hws
            exact absurd hws (by decide)
          · rw [hcc] at hcol
            injection hcol with h'
            exact absurd h' (by decide)
    · -- the whole THEME literal lies before ge, hence in s
      have hword : themeWordAt s t' :=
        ⟨by rw [← hagree t' (by omega)]; exact hT',
         by rw [← hagree (t' + 1) (by omega)]; exact hH',
         by rw [← hagree (t' + 2) (by omega)]; exact hE1',
         by rw [← hagree (t' + 3) (by omega)]; exact hM',
         by rw [← hagree (t' + 4) (by omega)]; exact hE2'⟩
      rcases (by omega : t' + 5 ≤ b1 ∨ (t' < b1 ∧ b1 < t' + 5) ∨ b1 ≤ t')
        with hca | hcb | hcc
      · exact hnothem t' hca hword
      · -- THEME would straddle b1
        rcases Nat.eq_zero_or_pos (runLenAt isPySpace s b1) with hz | hpos
        · have htb : t = b1 := by omega
          rcases (by omega : b1 = t' + 1 ∨ b1 = t' + 2 ∨ b1 = t' + 3 ∨
              b1 = t' + 4) with hd | hd | hd | hd <;>
            · have h1' := hword.1
              have hTb : charAt? s b1 = some 'T' := by rw [← htb]; exact hT
              rw [hd] at hTb
              first
              | (rw [hword.2.1] at hTb; injection hTb with h''
                 exact absurd h'' (by decide))
              | (rw [hword.2.2.1] at hTb; injection hTb with h''
                 exact absurd h'' (by decide))
              | (rw [hword.2.2.2.1] at hTb; injection hTb with h''
                 exact absurd h'' (by decide))
              | (rw [hword.2.2.2.2] at hTb; injection hTb with h''
                 exact absurd h'' (by decide))
        · have hwsb : (charAt? s b1).any isPySpace = true := by
            have := runLenAt_sat isPySpace s b1 0 (by omega)
            rwa [Nat.add_zero] at this
          rcases (by omega : b1 = t' + 1 ∨ b1 = t' + 2 ∨ b1 = t' + 3 ∨
              b1 = t' + 4) with hd | hd | hd | hd <;>
            · rw [hd] at hwsb
              first
              | (rw [hword.2.1] at hwsb; exact absurd hwsb (by decide))
              | (rw [hword.2.2.1] at hwsb; exact absurd hwsb (by decide))
              | (rw [hword.2.2.2.1] at hwsb; exact absurd hwsb (by decide))
              | (rw [hword.2.2.2.2] at hwsb; exact absurd hwsb (by decide))
      · -- t' at or after b1: locate t' inside the match prefix
        rcases (by omega : t' < t ∨ t' = t ∨ (t < t' ∧ t' < t + 5) ∨
            (t + 5 ≤ t' ∧ t' < q1) ∨ t' = q1 ∨ (q1 < t' ∧ t' < ge))
          with hr | hr | hr | hr | hr | hr
        · have := hlwsold t' (by omega) hr
          rw [hword.1] at this
          exact absurd this (by decide)
        · -- aligned: an equally good substitution match would have
          -- started at q in s, contradicting leftmostness
          have hwssq : ∀ x, q ≤ x → x < t →
              (charAt? s x).any isPySpace = true := by
            intro x hx1 hx2
            rw [← hagree x (by omega)]
            exact hwsq x hx1 (by omega)
          have hrunq : runLenAt isPySpace s q = t - q := by
            refine runLenAt_eq_of _ _ _ _ ?_ ?_
            · intro j hj
              exact hwssq (q + j) (by omega) (by omega)
            · rw [show q + (t - q) = t by omega, hT]
              decide
          have hirr := matchItems_fst_irrel s true themeAfterLws t (q, 0)
            (b1, 0)
          rw [hD] at hirr
          cases hx : matchItems s true themeAfterLws t (q, 0) with
          | none => rw [hx] at hirr; exact absurd hirr (by simp)
          | some R =>
            rcases R with ⟨e2, caps2⟩
            have hfull : matchItems s true themeSubItems q (0, 0) =
                some (e2, caps2) := by
              rw [themeSubItems_eq]
              refine matchItems_bol_intro _ _ _ _ _ _ ?_ ?_
              · rw [isBol] at hbolq ⊢
                rcases Bool.or_eq_true _ _ |>.mp hbolq with h0 | hnl
                · rw [h0]
                  rfl
                · have hag : charAt? nw (q - 1) = charAt? s (q - 1) :=
                    hagree _ (by omega)
                  rw [hag] at hnl
                  rw [hnl]
                  simp
              · rw [matchItems_grpOpen_eq]
                refine matchItems_star_max_intro _ _ _ _ _ _ _ ?_
                rw [hrunq, show q + (t - q) = t by omega]
                exact hx
            rw [hminold q hq] at hfull
            exact Option.noConfusion hfull
        · rcases (by omega : t' = t + 1 ∨ t' = t + 2 ∨ t' = t + 3 ∨
              t' = t + 4) with hd | hd | hd | hd <;>
            · have h1' := hword.1
              rw [hd] at h1'
              first
              | (rw [hH] at h1'; injection h1' with h''
                 exact absurd h'' (by decide))
              | (rw [hE1] at h1'; injection h1' with h''
                 exact absurd h'' (by decide))
              | (rw [hM] at h1'; injection h1' with h''
                 exact absurd h'' (by decide))
              | (rw [hE2] at h1'; injection h1' with h''
                 exact absurd h'' (by decide))
        · have := hmwsold t' hr.1 hr.2
          rw [hword.1] at this
          exact absurd this (by decide)
        · have h1' := hword.1
          rw [hr] at h1'
          rw [hColon] at h1'
          injection h1' with h''
          exact absurd h'' (by decide)
        · have := htws t' (by omega) hr.2
          rw [hword.1] at this
          exact absurd this (by decide)
  · -- the whitespace run of the would-be match would cover the old
    -- THEME literal at t
    have hws := hwsq t (by omega) (by omega)
    rw [hagree t (by omega), hT] at hws
    exact absurd hws (by decide)

/-- Captures of the substitution pattern start at the match, are
nonempty, and end within the match. -/
theorem themeSub_caps_fact (s : Str) :
    ∀ b' e' caps', matchItems s true themeSubItems b' (0, 0) =
      some (e', caps') → caps'.1 = b' ∧ b' < caps'.2 ∧ caps'.2 ≤ e' := by
  intro b' e' caps' h
  rcases themeSub_match_inv s b' e' caps' h with
    ⟨t, q1, ge, _, ht, _, _, _, _, _, hq1, _, hq1ge, _, hcaps, hgee, _, _⟩
  rw [hcaps]
  exact ⟨rfl, by omega, by omega⟩

/-- C1 (amended): for a nonempty theme name without quotes, apostrophes,
newlines and backslashes and without leading or trailing whitespace, if
the THEME field pattern occurs in `config.yaml` and the text before its
first match contains no occurrence of the word `THEME`, then `set_theme`
returns `True` and an immediately following `get_current_theme` returns
exactly that name. -/
theorem c1_roundtrip (file : Option Str) (name : Str) (b1 e1 : Nat)
    (caps1 : Caps)
    (hnn : name ≠ [])
    (hval : ∀ c ∈ name, isThemeValChar c = true)
    (hnb : ∀ c ∈ name, c ≠ backslashChar)
    (hhead : (charAt? name 0).any isPySpace = false)
    (hlast : (charAt? name (name.length - 1)).any isPySpace = false)
    (hsearch : search true themeSubItems (ScreenConfig.read file) =
      some (b1, e1, caps1))
    (hnothem : ∀ t', t' + 5 ≤ b1 →
      ¬ themeWordAt (ScreenConfig.read file) t') :
    (ScreenConfig.set_theme file name).1 = true ∧
    ScreenConfig.get_current_theme (ScreenConfig.set_theme file name).2 =
      some name := by
  set s := ScreenConfig.read file with hsdef
  rcases search_some_inv _ _ _ _ _ _ hsearch with ⟨hble, hm, hmin⟩
  have hele : e1 ≤ s.length :=
    matchItems_le_length s true themeSubItems b1 _ e1 caps1 hble hm
  rcases themeSub_match_inv s b1 e1 caps1 hm with
    ⟨t, q1, ge, hbol, ht, hT, hH, hE1, hM, hE2, hq1, hColon, hq1ge, htws,
     hcaps, hgee, heol, hD⟩
  have hb1t : b1 ≤ t := by omega
  have htq1 : t + 5 ≤ q1 := by omega
  have hgele : ge ≤ s.length := by omega
  -- the rewritten file
  rcases subn_first_step s true themeSubItems
    (fun caps => sliceStr s caps.1 caps.2 ++ name) b1 e1 caps1
    (themeSub_ne s) hsearch with ⟨tail, hout, spans', hsp⟩
  set nw := (subn true themeSubItems
    (fun caps => sliceStr s caps.1 caps.2 ++ name) s).1 with hnwdef
  have hnw : nw = s.take ge ++ (name ++ tail) := by
    rw [hout, hcaps]
    show sliceStr s 0 b1 ++ (sliceStr s b1 ge ++ name) ++ tail = _
    rw [← List.append_assoc (sliceStr s 0 b1) (sliceStr s b1 ge) name]
    rw [sliceStr_append_adj s 0 b1 ge (Nat.zero_le b1) (by omega) hgele]
    rw [sliceStr_zero]
    rw [List.append_assoc]
  have htakelen : (s.take ge).length = ge := by
    rw [List.length_take]
    omega
  have hagree : ∀ x, x < ge → charAt? nw x = charAt? s x := by
    intro x hx
    rw [hnw, charAt?_append_left _ _ _ (by omega), charAt?_take s ge x hx]
  have hnamepos : ∀ j, j < name.length → charAt? nw (ge + j) =
      charAt? name j := by
    intro j hj
    rw [hnw, charAt?_append_right _ _ _ (by omega), htakelen,
      show ge + j - ge = j by omega, charAt?_append_left _ _ _ hj]
  have htailpos : ∀ j, charAt? nw (ge + name.length + j) = charAt? tail j := by
    intro j
    rw [hnw, charAt?_append_right _ _ _ (by omega), htakelen,
      charAt?_append_right _ _ _ (by omega)]
    congr 1
    omega
  have hnwlen : nw.length = ge + name.length + tail.length := by
    rw [hnw, List.length_append, List.length_append, htakelen]
    omega
  -- the character right after the inserted name: newline or end of file
  have hzchar : charAt? nw (ge + name.length) = none ∧
        ge + name.length = nw.length ∨
      charAt? nw (ge + name.length) = some '\n' := by
    rw [isEol] at heol
    rcases Bool.or_eq_true _ _ |>.mp heol with hcase | hcase
    · left
      have he1 : e1 = s.length := beq_iff_eq.mp hcase
      have htail : tail = [] := by
        have := subnSpans_at_end s true themeSubItems _ e1 spans' tail hsp
          (by omega)
        rw [this, he1, List.drop_length]
      constructor
      · rw [← Nat.add_zero (ge + name.length), htailpos 0, htail]
        rfl
      · rw [hnwlen, htail]
        simp
    · right
      have hnl : charAt? s e1 = some '\n' := beq_iff_eq.mp hcase
      have he1lt : e1 < s.length := charAt?_lt s e1 '\n' hnl
      have hhead0 := subnSpans_head s true themeSubItems _ e1 spans' tail hsp
        he1lt (themeSub_caps_fact s) (fun caps' => ⟨name, rfl⟩)
      rw [← Nat.add_zero (ge + name.length), htailpos 0, hhead0, hnl]
  have heolz : isEol true nw (ge + name.length) = true := by
    rw [isEol]
    rcases hzchar with ⟨_, hlen⟩ | hnl
    · rw [hlen]
      simp
    · rw [hnl]
      simp
  -- the value run of the rewritten line is exactly the name
  have hnamelen : 1 ≤ name.length := by
    rcases List.exists_cons_of_ne_nil hnn with ⟨c, r, hcr⟩
    rw [hcr]
    simp
  have hnamechar : ∀ j, j < name.length →
      ∃ c, charAt? name j = some c ∧ c ∈ name := by
    intro j hj
    refine ⟨name[j], ?_, List.getElem_mem hj⟩
    show name[j]? = some name[j]
    exact List.getElem?_eq_getElem hj
  have hvalrun : runLenAt isThemeValChar nw ge = name.length := by
    refine runLenAt_eq_of _ _ _ _ ?_ ?_
    · intro j hj
      rcases hnamechar j hj with ⟨c, hc, hcm⟩
      rw [hnamepos j hj, hc]
      exact hval c hcm
    · rcases hzchar with ⟨hnone, _⟩ | hnl
      · rw [hnone]
        rfl
      · rw [hnl]
        decide
  -- whitespace runs of the rewritten prefix
  have hlwsnw : runLenAt isPySpace nw b1 = t - b1 := by
    refine runLenAt_eq_of _ _ _ _ ?_ ?_
    · intro j hj
      rw [hagree (b1 + j) (by omega)]
      have := runLenAt_sat isPySpace s b1 j (by omega)
      exact this
    · rw [show b1 + (t - b1) = t by omega, hagree t (by omega), hT]
      decide
  have hmwsnw : runLenAt isPySpace nw (t + 5) = q1 - (t + 5) := by
    refine runLenAt_eq_of _ _ _ _ ?_ ?_
    · intro j hj
      rw [hagree (t + 5 + j) (by omega)]
      have := runLenAt_sat isPySpace s (t + 5) j (by omega)
      exact this
    · rw [show t + 5 + (q1 - (t + 5)) = q1 by omega, hagree q1 (by omega),
        hColon]
      decide
  have hname0 : ∃ c0, charAt? name 0 = some c0 ∧ c0 ∈ name :=
    hnamechar 0 (by omega)
  have htwsnw : runLenAt isPySpace nw (q1 + 1) = ge - (q1 + 1) := by
    refine runLenAt_eq_of _ _ _ _ ?_ ?_
    · intro j hj
      rw [hagree (q1 + 1 + j) (by omega)]
      exact htws (q1 + 1 + j) (by omega) (by omega)
    · rw [show q1 + 1 + (ge - (q1 + 1)) = ge by omega,
        ← Nat.add_zero ge, hnamepos 0 (by omega)]
      exact hhead
  have hq0 : (charAt? nw ge).any isQuote = false := by
    rw [← Nat.add_zero ge, hnamepos 0 (by omega)]
    rcases hname0 with ⟨c0, hc0, hc0m⟩
    rw [hc0]
    exact isThemeValChar_not_quote c0 (hval c0 hc0m)
  have hbolnw : isBol nw b1 = true := by
    rw [isBol] at hbol ⊢
    rcases Bool.or_eq_true _ _ |>.mp hbol with h0 | hnl
    · rw [h0]
      rfl
    · rw [hagree (b1 - 1) (by omega), hnl]
      simp
  -- the match of the reading pattern at b1 in the rewritten file
  rcases themeGet_match_at nw b1 t q1 ge (ge + name.length) hbolnw hb1t
    hlwsnw
    (by rw [hagree t (by omega)]; exact hT)
    (by rw [hagree (t + 1) (by omega)]; exact hH)
    (by rw [hagree (t + 2) (by omega)]; exact hE1)
    (by rw [hagree (t + 3) (by omega)]; exact hM)
    (by rw [hagree (t + 4) (by omega)]; exact hE2)
    htq1 hmwsnw
    (by rw [hagree q1 (by omega)]; exact hColon)
    hq1ge htwsnw (by omega) (by omega) hq0 heolz with ⟨m, hgm⟩
  -- and no earlier one
  have hminnw : ∀ q, q < b1 →
      matchItems nw true themeGetItems q (0, 0) = none :=
    themeGet_no_early_match s nw b1 e1 caps1 t q1 ge hmin ht hT hH hE1 hM hE2
      hq1 hColon hq1ge htws hD hagree hnothem
  have hsearchnw : search true themeGetItems nw =
      some (b1, m, (ge, ge + name.length)) :=
    search_intro nw true themeGetItems b1 m (ge, ge + name.length)
      (by omega) hgm hminnw
  -- conclusions
  have hcount : (subn true themeSubItems
      (fun caps => sliceStr s caps.1 caps.2 ++ name) s).2 ≠ 0 := by
    rw [subn_count_ne_zero_iff]
    rw [hsearch]
    simp
  have hset : ScreenConfig.set_theme file name = (true, some nw) := by
    simp only [ScreenConfig.set_theme, ← hsdef]
    rw [if_pos hcount]
  rw [hset]
  refine ⟨rfl, ?_⟩
  show ScreenConfig.get_current_theme (some nw) = some name
  have hslice : sliceStr nw ge (ge + name.length) = name := by
    apply List.ext_getElem?
    intro j
    show charAt? (sliceStr nw ge (ge + name.length)) j = charAt? name j
    by_cases hj : j < name.length
    · rw [charAt?_sliceStr nw ge (ge + name.length) j (by omega)]
      exact hnamepos j hj
    · rw [sliceStr_charAt?_eq_none nw ge (ge + name.length) j (by omega)
        (by omega) (by omega)]
      rw [charAt?_eq_none name j (by omega)]
  rw [ScreenConfig.get_current_theme]
  simp only [ScreenConfig.read, Option.getD_some, hsearchnw]
  rw [hslice, pyStrip_eq_self name hhead hlast]

/-- Witness for C1 at a concrete configuration file and theme name. -/
theorem c1_roundtrip_witness :
    (ScreenConfig.set_theme (some ("THEME: abc\n".toList))
      ("New".toList)).1 = true ∧
    ScreenConfig.get_current_theme
      (ScreenConfig.set_theme (some ("THEME: abc\n".toList))
        ("New".toList)).2 = some ("New".toList) :=
  c1_roundtrip (some ("THEME: abc\n".toList)) ("New".toList) 0 11 (0, 7)
    (by decide) (by decide) (by decide) (by decide) (by decide) (by decide)
    (fun t' ht' => absurd ht' (by omega))
